import Mathlib

/-!
Verification of libADT: a doubly linked list and a separate-chaining hash table.

A shallow embedding of `src/src/LinkedListAPI.c` and `src/src/HashTableAPI.c`.

* Pointers are natural numbers (`Nat`), `0` is `NULL`.
* Dynamic memory is an explicit store `Mem`: a partial map from addresses to
  cells together with the number of `malloc` calls made so far.  `malloc`
  hands out the fresh address `brk + 1` (an address is never handed out
  twice, so every access through a dangling pointer is detected) and fails
  when the allocation oracle `mallocOk` says so.
* A `void *` payload is an `Option α`: `none` is the `NULL` payload.
* Undefined behaviour (dereferencing `NULL`, touching freed memory, indexing
  outside the bucket array) is the explicit result `Except.error`.
* Every `while` loop that walks a chain is a recursion on a fuel counter that
  starts at `brk + 1`.  A walk that makes more than `brk` steps has met some
  address twice, so the C loop would not terminate; this is `Fault.diverge`.
* `size_t length` is a `Nat`: each node occupies its own address, so the
  counter cannot wrap before the address space is exhausted.
-/

namespace LibADT

/-! ## Memory model -/

/-- Ways in which the C program can leave defined behaviour. -/
inductive Fault where
  | nullDeref
  | badAccess
  | outOfBounds
  | diverge
  deriving DecidableEq, Repr

/-- Store of cells of type `C`. -/
structure Mem (C : Type) where
  cells : Nat → Option C
  brk : Nat
  mallocOk : Nat → Bool

/-- Store in which nothing has been allocated yet. -/
def Mem.empty {C : Type} (ok : Nat → Bool) : Mem C :=
  { cells := fun _ => none, brk := 0, mallocOk := ok }

/-- Load through a pointer. -/
def Mem.read {C : Type} (m : Mem C) (p : Nat) : Except Fault C :=
  if p = 0 then .error .nullDeref
  else match m.cells p with
    | none => .error .badAccess
    | some c => .ok c

/-- Store through a pointer. -/
def Mem.write {C : Type} (m : Mem C) (p : Nat) (c : C) : Except Fault (Mem C) :=
  if p = 0 then .error .nullDeref
  else match m.cells p with
    | none => .error .badAccess
    | some _ => .ok { m with cells := fun q => if q = p then some c else m.cells q }

/-- The call `malloc(sizeof(C))` followed by the initialisation of the new cell:
the null pointer when the oracle refuses, the fresh address otherwise. -/
def Mem.malloc {C : Type} (m : Mem C) (init : C) : Nat × Mem C :=
  if m.mallocOk m.brk then
    (m.brk + 1,
      { m with brk := m.brk + 1,
               cells := fun q => if q = m.brk + 1 then some init else m.cells q })
  else (0, { m with brk := m.brk + 1 })

/-- The call `free(p)`; `free(NULL)` does nothing. -/
def Mem.free {C : Type} (m : Mem C) (p : Nat) : Except Fault (Mem C) :=
  if p = 0 then .ok m
  else match m.cells p with
    | none => .error .badAccess
    | some _ => .ok { m with cells := fun q => if q = p then none else m.cells q }

/-- Value of `EXIT_SUCCESS`. -/
def EXIT_SUCCESS : Int := 0

/-- Value of `EXIT_FAILURE`. -/
def EXIT_FAILURE : Int := 1

/-! ## LinkedListAPI.c -/

/-- The struct `ListNode`. -/
structure ListNode (α : Type) where
  data : Option α
  prev : Nat
  next : Nat

/-- The struct `List` (renamed, `List` is Lean's own list type).  The
`destroyData` callback has no result; its calls are recorded in
`ListState.destroyed`. -/
structure LinkedList (α : Type) where
  head : Nat
  tail : Nat
  length : Nat
  printData : Option α → String
  compareData : Option α → Option α → Int

/-- Everything a list operation can see or change: the struct behind the
`List *` argument (`none` when the argument is `NULL`), the node store and the
payloads handed to `destroyData` so far (latest first). -/
structure ListState (α : Type) where
  list : Option (LinkedList α)
  mem : Mem (ListNode α)
  destroyed : List (Option α)

/-- The struct `ListIterator`.  A state holds one list, so the member `list` is
either `NULL` (`false`) or the address of the list of the state (`true`). -/
structure ListIterator where
  list : Bool
  currentNode : Nat

variable {α : Type}

/-- Function `createListNode`, lines 9-20. -/
def createListNode (m : Mem (ListNode α)) (data : Option α) : Nat × Mem (ListNode α) :=
  m.malloc { data := data, next := 0, prev := 0 }

/-- Function `createList`, lines 22-40 (the three callbacks are present, the struct is
allocated). -/
def createList (ok : Nat → Bool) (printData : Option α → String)
    (compareData : Option α → Option α → Int) : ListState α :=
  { list := some { head := 0, tail := 0, length := 0,
                   printData := printData, compareData := compareData },
    mem := Mem.empty ok,
    destroyed := [] }

/-- Function `insertListFront`, lines 42-65. -/
def insertListFront (s : ListState α) (data : Option α) : Except Fault (Int × ListState α) :=
  match s.list with
  | none => .ok (EXIT_FAILURE, s)
  | some list =>
    match createListNode s.mem data with
    | (node, m) =>
      if node = 0 then .ok (EXIT_FAILURE, { s with mem := m })
      else if list.head = 0 ∧ list.tail = 0 then
        .ok (EXIT_SUCCESS,
          { s with mem := m,
                   list := some { list with head := node, tail := node,
                                            length := list.length + 1 } })
      else do
        let n ← m.read node
        let m ← m.write node { n with next := list.head }
        let h ← m.read list.head
        let m ← m.write list.head { h with prev := node }
        .ok (EXIT_SUCCESS,
          { s with mem := m,
                   list := some { list with head := node, length := list.length + 1 } })

/-- Function `insertListBack`, lines 67-90. -/
def insertListBack (s : ListState α) (data : Option α) : Except Fault (Int × ListState α) :=
  match s.list with
  | none => .ok (EXIT_FAILURE, s)
  | some list =>
    match createListNode s.mem data with
    | (node, m) =>
      if node = 0 then .ok (EXIT_FAILURE, { s with mem := m })
      else if list.head = 0 ∧ list.tail = 0 then
        .ok (EXIT_SUCCESS,
          { s with mem := m,
                   list := some { list with head := node, tail := node,
                                            length := list.length + 1 } })
      else do
        let n ← m.read node
        let m ← m.write node { n with prev := list.tail }
        let t ← m.read list.tail
        let m ← m.write list.tail { t with next := node }
        .ok (EXIT_SUCCESS,
          { s with mem := m,
                   list := some { list with tail := node, length := list.length + 1 } })

/-- Function `getFromListFront`, lines 230-236. -/
def getFromListFront (s : ListState α) : Except Fault (Option α) :=
  match s.list with
  | none => .ok none
  | some list =>
    if list.length = 0 then .ok none
    else do
      let h ← s.mem.read list.head
      .ok h.data

/-- Function `getFromListBack`, lines 238-244. -/
def getFromListBack (s : ListState α) : Except Fault (Option α) :=
  match s.list with
  | none => .ok none
  | some list =>
    if list.length = 0 then .ok none
    else do
      let t ← s.mem.read list.tail
      .ok t.data

/-- The `while (temp)` loop of `insertSortedList`, lines 115-125.  The result
is `some m` when the seam was found and the node linked in (store `m`), and
`none` when the loop ran off the end of the chain.  The second comparison is
evaluated only when the first one holds, as `&&` does. -/
def insertSortedLoop (cmp : Option α → Option α → Int) :
    Nat → Mem (ListNode α) → Nat → Nat → Except Fault (Option (Mem (ListNode α)))
  | 0, _, _, _ => .error .diverge
  | fuel + 1, m, node, temp =>
    if temp = 0 then .ok none
    else do
      let n ← m.read node
      let t ← m.read temp
      if cmp n.data t.data > 0 then
        let tn ← m.read t.next
        if cmp n.data tn.data ≤ 0 then
          let m ← m.write node { n with next := t.next }
          let tn ← m.read t.next
          let m ← m.write t.next { tn with prev := node }
          let n ← m.read node
          let m ← m.write node { n with prev := temp }
          let t ← m.read temp
          let m ← m.write temp { t with next := node }
          .ok (some m)
        else insertSortedLoop cmp fuel m node t.next
      else insertSortedLoop cmp fuel m node t.next

/-- Function `insertSortedList`, lines 92-131. -/
def insertSortedList (s : ListState α) (data : Option α) : Except Fault (Int × ListState α) :=
  match s.list with
  | none => .ok (EXIT_FAILURE, s)
  | some list =>
    if list.head = 0 ∧ list.tail = 0 then insertListFront s data
    else do
      let f ← getFromListFront s
      if list.compareData data f < 0 then insertListFront s data
      else
        let b ← getFromListBack s
        if list.compareData data b ≥ 0 then insertListBack s data
        else
          match createListNode s.mem data with
          | (node, m) =>
            if node = 0 then .ok (EXIT_FAILURE, { s with mem := m })
            else do
              let r ← insertSortedLoop list.compareData (m.brk + 1) m node list.head
              match r with
              | some m =>
                .ok (EXIT_SUCCESS,
                  { s with mem := m, list := some { list with length := list.length + 1 } })
              | none =>
                let m ← m.free node
                .ok (EXIT_FAILURE, { s with mem := m })

/-- Function `removeListFront`, lines 156-172. -/
def removeListFront (s : ListState α) : Except Fault (Int × ListState α) :=
  match s.list with
  | none => .ok (EXIT_FAILURE, s)
  | some list =>
    if list.length = 0 then .ok (EXIT_FAILURE, s)
    else do
      let temp := list.head
      let t ← s.mem.read temp
      let list := { list with head := t.next }
      let m ← (if list.head ≠ 0 then do
                  let h ← s.mem.read list.head
                  s.mem.write list.head { h with prev := 0 }
                else .ok s.mem)
      let t ← m.read temp
      let m ← m.free temp
      .ok (EXIT_SUCCESS, { list := some list, mem := m, destroyed := t.data :: s.destroyed })

/-- Function `removeListBack`, lines 174-190.  Line 180 assigns `temp->prev` to
`list->head`, and line 181 tests `list->tail`, which still is `temp`. -/
def removeListBack (s : ListState α) : Except Fault (Int × ListState α) :=
  match s.list with
  | none => .ok (EXIT_FAILURE, s)
  | some list =>
    if list.length = 0 then .ok (EXIT_FAILURE, s)
    else do
      let temp := list.tail
      let t ← s.mem.read temp
      let list := { list with head := t.prev }
      let m ← (if list.tail ≠ 0 then do
                  let h ← s.mem.read list.tail
                  s.mem.write list.tail { h with next := 0 }
                else .ok s.mem)
      let t ← m.read temp
      let m ← m.free temp
      .ok (EXIT_SUCCESS, { list := some list, mem := m, destroyed := t.data :: s.destroyed })

/-- Body of the `if` at lines 203-222 of `removeFromList`: unlink `temp`,
destroy its payload, free it. -/
def removeFromListUnlink (list : LinkedList α) (m : Mem (ListNode α))
    (destroyed : List (Option α)) (temp : Nat) : Except Fault (ListState α) := do
  let t ← m.read temp
  let (list, m) ←
    (if temp = list.head then do
        let list := { list with head := t.next }
        if list.head ≠ 0 then
          let h ← m.read list.head
          let m ← m.write list.head { h with prev := 0 }
          .ok (list, m)
        else .ok (list, m)
      else if temp = list.tail then do
        let list := { list with tail := t.prev }
        if list.tail ≠ 0 then
          let h ← m.read list.tail
          let m ← m.write list.tail { h with next := 0 }
          .ok (list, m)
        else .ok (list, m)
      else do
        let p ← m.read t.prev
        let m ← m.write t.prev { p with next := t.next }
        let t ← m.read temp
        let n ← m.read t.next
        let m ← m.write t.next { n with prev := t.prev }
        .ok (list, m) : Except Fault (LinkedList α × Mem (ListNode α)))
  let t ← m.read temp
  let m ← m.free temp
  .ok { list := some list, mem := m, destroyed := t.data :: destroyed }

/-- The `while (temp)` loop of `removeFromList`, lines 201-225. -/
def removeFromListLoop (list : LinkedList α) (destroyed : List (Option α)) (data : Option α) :
    Nat → Mem (ListNode α) → Nat → Except Fault (Option (ListState α))
  | 0, _, _ => .error .diverge
  | fuel + 1, m, temp =>
    if temp = 0 then .ok none
    else do
      let t ← m.read temp
      if list.compareData t.data data = 0 then
        let s ← removeFromListUnlink list m destroyed temp
        .ok (some s)
      else removeFromListLoop list destroyed data fuel m t.next

/-- Function `removeFromList`, lines 192-228. -/
def removeFromList (s : ListState α) (data : Option α) : Except Fault (Int × ListState α) :=
  match s.list with
  | none => .ok (EXIT_FAILURE, s)
  | some list =>
    if data.isNone = true ∨ list.length = 0 then .ok (EXIT_FAILURE, s)
    else do
      let r ← removeFromListLoop list s.destroyed data (s.mem.brk + 1) s.mem list.head
      match r with
      | some s' => .ok (EXIT_SUCCESS, s')
      | none => .ok (EXIT_FAILURE, s)

/-! ### Observing a list -/

/-- Payloads met when following `next` from `p` until `NULL`. -/
def walkNext : Nat → Mem (ListNode α) → Nat → Except Fault (List (Option α))
  | 0, _, _ => .error .diverge
  | fuel + 1, m, p =>
    if p = 0 then .ok []
    else do
      let n ← m.read p
      let rest ← walkNext fuel m n.next
      .ok (n.data :: rest)

/-- Head-to-tail traversal of the list: the payloads met from `list->head`
following `next`. -/
def traversal (s : ListState α) : Except Fault (List (Option α)) :=
  match s.list with
  | none => .error .nullDeref
  | some list => walkNext (s.mem.brk + 1) s.mem list.head

/-- Value of `list->length`. -/
def lengthField (s : ListState α) : Option Nat :=
  s.list.map (·.length)

/-- A call of one of the mutating list operations. -/
inductive ListCall (α : Type) where
  | insertFront (data : Option α)
  | insertBack (data : Option α)
  | insertSorted (data : Option α)
  | removeFront
  | removeBack
  | removeMatching (data : Option α)

/-- Perform one call. -/
def ListCall.run (s : ListState α) : ListCall α → Except Fault (Int × ListState α)
  | .insertFront d => insertListFront s d
  | .insertBack d => insertListBack s d
  | .insertSorted d => insertSortedList s d
  | .removeFront => removeListFront s
  | .removeBack => removeListBack s
  | .removeMatching d => removeFromList s d

/-- Perform a sequence of calls in order, collecting the return codes. -/
def runCalls : List (ListCall α) → ListState α → Except Fault (List Int × ListState α)
  | [], s => .ok ([], s)
  | c :: cs, s => do
    let (r, s1) ← c.run s
    let (rs, s2) ← runCalls cs s1
    .ok (r :: rs, s2)

/-- The call is `insertFront` or `insertBack`. -/
def ListCall.isEndInsert : ListCall α → Bool
  | .insertFront _ => true
  | .insertBack _ => true
  | _ => false

/-- The call is one of the three insertions. -/
def ListCall.isInsert : ListCall α → Bool
  | .insertFront _ => true
  | .insertBack _ => true
  | .insertSorted _ => true
  | _ => false

/-- The call is `insertSorted`. -/
def ListCall.isSortedInsert : ListCall α → Bool
  | .insertSorted _ => true
  | _ => false

/-- What the specification says an end insertion does to the sequence of
payloads: a front insertion prepends, a back insertion appends. -/
def endInsertSpec (ds : List (Option α)) : ListCall α → List (Option α)
  | .insertFront d => d :: ds
  | .insertBack d => ds ++ [d]
  | _ => ds

/-! ### Representation of a well-formed list -/

/-- Address of the first node of a chain, `dflt` when the chain is empty. -/
def firstAddr (dflt : Nat) : List (Nat × Option α) → Nat
  | [] => dflt
  | x :: _ => x.1

/-- Address of the last node of a chain, `dflt` when the chain is empty. -/
def lastAddr (dflt : Nat) : List (Nat × Option α) → Nat
  | [] => dflt
  | x :: r => lastAddr x.1 r

/-- The cells at the addresses of `xs` form a doubly linked chain holding the
payloads of `xs`, entered from `prv` and left towards `nxt`. -/
def Chain (cells : Nat → Option (ListNode α)) : Nat → List (Nat × Option α) → Nat → Prop
  | _, [], _ => True
  | prv, x :: r, nxt =>
    cells x.1 = some { data := x.2, prev := prv, next := firstAddr nxt r } ∧ Chain cells x.1 r nxt

/-- The callbacks and the allocation oracle a list lives with. -/
structure Env (α : Type) where
  ok : Nat → Bool
  pr : Option α → String
  cmp : Option α → Option α → Int

/-- The state `s` is a well-formed list whose nodes, head to tail, are `xs`
(address and payload of each node). -/
structure Repr (E : Env α) (s : ListState α) (xs : List (Nat × Option α)) : Prop where
  list : ∃ l, s.list = some l ∧ l.head = firstAddr 0 xs ∧ l.tail = lastAddr 0 xs ∧
    l.length = xs.length ∧ l.compareData = E.cmp ∧ l.printData = E.pr
  ok : s.mem.mallocOk = E.ok
  chain : Chain s.mem.cells 0 xs 0
  nodup : (xs.map Prod.fst).Nodup
  bound : ∀ x ∈ xs, 0 < x.1 ∧ x.1 ≤ s.mem.brk
  fresh : ∀ p, s.mem.brk < p → s.mem.cells p = none

/-- The state left by an operation whose `malloc` call was refused: nothing
changed except that one more allocation has been attempted. -/
def ListState.afterFailedMalloc (s : ListState α) : ListState α :=
  { s with mem := { s.mem with brk := s.mem.brk + 1 } }

/-- Where the scan of `insertSortedList` (lines 115-125) links the new node `x`
into the chain: right after the first node `t` with `cmp x t > 0` whose
successor `u` has `cmp x u ≤ 0`; `none` when the chain has no such node. -/
def seamInsert (cmp : Option α → Option α → Int) (x : Nat × Option α) :
    List (Nat × Option α) → Option (List (Nat × Option α))
  | [] => none
  | [_] => none
  | t :: u :: post =>
    if cmp x.2 t.2 > 0 ∧ cmp x.2 u.2 ≤ 0 then some (t :: x :: u :: post)
    else (seamInsert cmp x (u :: post)).map (t :: ·)

/-- Last element of `x :: r`. -/
def lastNode {β : Type} (x : β) : List β → β
  | [] => x
  | y :: r => lastNode y r

/-- What `insertSortedList` does to a well-formed chain when the allocation
succeeds, with `x` the new node: the front shortcut, the back shortcut, or the
seam scan; `none` when the call reports failure. -/
def insertSortedModel (cmp : Option α → Option α → Int) (x : Nat × Option α) :
    List (Nat × Option α) → Option (List (Nat × Option α))
  | [] => some [x]
  | f :: r =>
    if cmp x.2 f.2 < 0 then some (x :: f :: r)
    else if cmp x.2 (lastNode f r).2 ≥ 0 then some (f :: r ++ [x])
    else seamInsert cmp x (f :: r)

/-- Modelled from the spec: the "integer compare callback" of the concrete
scenarios (callbacks are supplied by the caller, the repository has none of its
own).  It orders the integers pointed to and returns a negative, zero or
positive value; a `NULL` payload sorts before every integer. -/
def intCompare : Option Int → Option Int → Int
  | some a, some b => if a < b then -1 else if a = b then 0 else 1
  | none, none => 0
  | none, some _ => -1
  | some _, none => 1

/-- The contract of a three-way compare callback that orders the payloads as a
total preorder: swapping the arguments swaps the sign of the result, and
"not greater than" is transitive. -/
structure IsTotalPreorder (cmp : Option α → Option α → Int) : Prop where
  swap : ∀ a b, cmp a b < 0 ↔ 0 < cmp b a
  trans : ∀ a b c, cmp a b ≤ 0 → cmp b c ≤ 0 → cmp a c ≤ 0

/-- Every adjacent pair `(a, b)` of the sequence has `cmp a b ≤ 0`. -/
def SortedBy (cmp : Option α → Option α → Int) : List (Option α) → Prop
  | [] => True
  | [_] => True
  | a :: b :: r => cmp a b ≤ 0 ∧ SortedBy cmp (b :: r)

/-- Sortedness can be checked by evaluation. -/
def SortedBy.decide (cmp : Option α → Option α → Int) :
    (ds : List (Option α)) → Decidable (SortedBy cmp ds)
  | [] => isTrue trivial
  | [_] => isTrue trivial
  | a :: b :: r =>
    match Int.decLe (cmp a b) 0, SortedBy.decide cmp (b :: r) with
    | isTrue h1, isTrue h2 => isTrue ⟨h1, h2⟩
    | isFalse h1, _ => isFalse (fun h => h1 h.1)
    | isTrue _, isFalse h2 => isFalse (fun h => h2 h.2)

instance SortedBy.instDecidable (cmp : Option α → Option α → Int) (ds : List (Option α)) :
    Decidable (SortedBy cmp ds) :=
  SortedBy.decide cmp ds

/-- A compare callback for payloads that are pairs (key, tag): it orders by the
key alone, so payloads with equal keys and different tags compare equal without
being the same payload. -/
def keyCompare : Option (Int × Int) → Option (Int × Int) → Int :=
  fun a b => intCompare (a.map Prod.fst) (b.map Prod.fst)

/-- Stability on ties as the specification words it: `ds'` is `ds` with the
new payload `x` inserted at one position, and no old element standing after `x`
compares equal to it. -/
def PlacedAfterEquals (cmp : Option α → Option α → Int) (x : Option α)
    (ds ds' : List (Option α)) : Prop :=
  ∃ pre post, ds = pre ++ post ∧ ds' = pre ++ x :: post ∧ ∀ e ∈ post, cmp x e ≠ 0

/-! ## HashTableAPI.c -/

/-- The struct `HTableNode`. -/
structure HTableNode (β : Type) where
  key : Int
  data : Option β
  next : Nat

/-- The struct `HTable`.  The bucket array `table` is the function from the
index to the head pointer of the bucket; only the indices below `size` belong
to the array.  The `destroyData` callback has no result; its calls are recorded
in `TableState.destroyed`. -/
structure HTable (β : Type) where
  size : Nat
  table : Nat → Nat
  printData : Option β → String
  hashData : Nat → Int → Int

/-- Everything a table operation can see or change: the struct behind the
`HTable *` argument (`none` when the argument is `NULL`), the node store and
the payloads handed to `destroyData` so far (latest first). -/
structure TableState (β : Type) where
  hTable : Option (HTable β)
  mem : Mem (HTableNode β)
  destroyed : List (Option β)

variable {β : Type}

/-- Function `createHTableNode`, lines 9-20. -/
def createHTableNode (m : Mem (HTableNode β)) (key : Int) (data : Option β) :
    Nat × Mem (HTableNode β) :=
  m.malloc { next := 0, key := key, data := data }

/-- Function `createTable`, lines 22-48, with both allocations succeeding and the three
callbacks present.  `malloc` does not initialise memory: `junkSize` is what
`hTable->size` holds when the loop at line 34 reads it (it is assigned only at
line 42) and `junkTable` is what the bucket array holds.  The loop clears the
buckets below `junkSize` and writes outside the array when `junkSize` exceeds
`size`. -/
def createTable (ok : Nat → Bool) (junkSize : Nat) (junkTable : Nat → Nat) (size : Nat)
    (printData : Option β → String) (hashData : Nat → Int → Int) :
    Except Fault (TableState β) :=
  if junkSize > size then .error .outOfBounds
  else
    .ok { hTable := some { size := size,
                           table := fun i => if i < junkSize then 0 else junkTable i,
                           printData := printData, hashData := hashData },
          mem := Mem.empty ok,
          destroyed := [] }

/-- The bucket index `hTable->hashData(hTable->size, key)` as an array index:
an index outside `[0, size)` leaves the bucket array. -/
def bucketIndex (t : HTable β) (key : Int) : Except Fault Nat :=
  let index := t.hashData t.size key
  if 0 ≤ index ∧ index < t.size then .ok index.toNat else .error .outOfBounds

/-- The `while (temp)` loop of `insertData`, lines 59-67.  The test at line 60
reads the key of the bucket head, `hTable->table[index]->key`, at every node.
The result is `some` when the loop returned from the function after replacing
the payload of `temp`, and `none` when it ended with `temp == NULL`. -/
def insertDataLoop (head : Nat) (key : Int) (data : Option β) :
    Nat → Mem (HTableNode β) → List (Option β) → Nat →
      Except Fault (Option (Mem (HTableNode β) × List (Option β)))
  | 0, _, _, _ => .error .diverge
  | fuel + 1, m, destroyed, temp =>
    if temp = 0 then .ok none
    else do
      let h ← m.read head
      if h.key = key then
        let t ← m.read temp
        let m ← m.write temp { t with data := data }
        .ok (some (m, t.data :: destroyed))
      else
        let t ← m.read temp
        insertDataLoop head key data fuel m destroyed t.next

/-- Function `insertData`, lines 50-74.  After the loop `temp` is `NULL`, and line 68
stores the new node through it. -/
def insertData (s : TableState β) (key : Int) (data : Option β) :
    Except Fault (Int × TableState β) :=
  match s.hTable with
  | none => .ok (EXIT_FAILURE, s)
  | some t => do
    let index ← bucketIndex t key
    if t.table index ≠ 0 then
      let r ← insertDataLoop (t.table index) key data (s.mem.brk + 1) s.mem s.destroyed
        (t.table index)
      match r with
      | some (m, destroyed) => .ok (EXIT_SUCCESS, { s with mem := m, destroyed := destroyed })
      | none =>
        let temp := 0
        match createHTableNode s.mem key data with
        | (node, m) => do
          let n ← m.read temp
          let m ← m.write temp { n with next := node }
          .ok (EXIT_SUCCESS, { s with mem := m })
    else
      match createHTableNode s.mem key data with
      | (node, m) =>
        .ok (EXIT_SUCCESS,
          { s with mem := m,
                   hTable := some { t with table := fun i => if i = index then node
                                                             else t.table i } })

/-- The `while (temp)` loop of `removeData`, lines 112-129.  `prev` is set to
`temp` at the top of every iteration, so the branch `!prev` is never taken and
line 119 stores `temp->next` into `temp->next`.  The result is `some` when a
node with the key was destroyed and freed. -/
def removeDataLoop (key : Int) :
    Nat → Mem (HTableNode β) → List (Option β) → Nat →
      Except Fault (Option (Mem (HTableNode β) × List (Option β)))
  | 0, _, _, _ => .error .diverge
  | fuel + 1, m, destroyed, temp =>
    if temp = 0 then .ok none
    else do
      let prev := temp
      let t ← m.read temp
      if t.key = key then
        let p ← m.read prev
        let m ← m.write prev { p with next := t.next }
        let t ← m.read temp
        let m ← m.free temp
        .ok (some (m, t.data :: destroyed))
      else removeDataLoop key fuel m destroyed t.next

/-- Function `removeData`, lines 102-133. -/
def removeData (s : TableState β) (key : Int) : Except Fault (Int × TableState β) :=
  match s.hTable with
  | none => .ok (EXIT_FAILURE, s)
  | some t => do
    let index ← bucketIndex t key
    if t.table index ≠ 0 then
      let r ← removeDataLoop key (s.mem.brk + 1) s.mem s.destroyed (t.table index)
      match r with
      | some (m, destroyed) => .ok (EXIT_SUCCESS, { s with mem := m, destroyed := destroyed })
      | none => .ok (EXIT_FAILURE, s)
    else .ok (EXIT_FAILURE, s)

/-- The `while (temp)` loop of `lookupData`, lines 148-153. -/
def lookupDataLoop (key : Int) : Nat → Mem (HTableNode β) → Nat → Except Fault (Option β)
  | 0, _, _ => .error .diverge
  | fuel + 1, m, temp =>
    if temp = 0 then .ok none
    else do
      let t ← m.read temp
      if t.key = key then .ok t.data
      else lookupDataLoop key fuel m t.next

/-- Function `lookupData`, lines 135-156. -/
def lookupData (s : TableState β) (key : Int) : Except Fault (Option β) :=
  match s.hTable with
  | none => .ok none
  | some t => do
    let index ← bucketIndex t key
    if t.table index = 0 then .ok none
    else lookupDataLoop key (s.mem.brk + 1) s.mem (t.table index)

/-- Keys of the nodes met when following `next` from `p` until `NULL`. -/
def chainKeys : Nat → Mem (HTableNode β) → Nat → Except Fault (List Int)
  | 0, _, _ => .error .diverge
  | fuel + 1, m, p =>
    if p = 0 then .ok []
    else do
      let n ← m.read p
      let rest ← chainKeys fuel m n.next
      .ok (n.key :: rest)

/-- Keys stored in bucket `i`, in chain order. -/
def bucketKeys (s : TableState β) (i : Nat) : Except Fault (List Int) :=
  match s.hTable with
  | none => .error .nullDeref
  | some t => if i < t.size then chainKeys (s.mem.brk + 1) s.mem (t.table i)
              else .error .outOfBounds

/-- Modelled from the spec: the hash callback of the concrete scenario,
`hash(size, key) = key mod size` (callbacks are supplied by the caller). -/
def modHash (size : Nat) (key : Int) : Int :=
  key % size

/-! ## LinkedListAPI.c: search, printing and cursors -/

/-- The value of `(size_t) -1`, which `getListIndex` returns for "not found". -/
def SIZE_MAX : Nat := 2 ^ 64 - 1

/-- The `while (temp)` loop of `getListIndex`, lines 254-261, followed by the
`return -1` of line 263.  `counter` is a `size_t`. -/
def getListIndexLoop (cmp : Option α → Option α → Int) (data : Option α) :
    Nat → Mem (ListNode α) → Nat → Nat → Except Fault Nat
  | 0, _, _, _ => .error .diverge
  | fuel + 1, m, temp, counter =>
    if temp = 0 then .ok SIZE_MAX
    else do
      let t ← m.read temp
      if cmp t.data data = 0 then .ok counter
      else getListIndexLoop cmp data fuel m t.next ((counter + 1) % 2 ^ 64)

/-- Function `getListIndex`, lines 246-264. -/
def getListIndex (s : ListState α) (data : Option α) : Except Fault Nat :=
  match s.list with
  | none => .ok SIZE_MAX
  | some list =>
    if list.length = 0 ∨ data.isNone = true then .ok SIZE_MAX
    else getListIndexLoop list.compareData data (s.mem.brk + 1) s.mem list.head 0

/-- The `while (temp)` loop of `getListData`, lines 274-281, followed by the
`return NULL` of line 284. -/
def getListDataLoop (index : Nat) :
    Nat → Mem (ListNode α) → Nat → Nat → Except Fault (Option α)
  | 0, _, _, _ => .error .diverge
  | fuel + 1, m, temp, counter =>
    if temp = 0 then .ok none
    else do
      let t ← m.read temp
      if counter = index then .ok t.data
      else getListDataLoop index fuel m t.next ((counter + 1) % 2 ^ 64)

/-- Function `getListData`, lines 266-285.  The argument `index` is a `size_t`,
so the test `index < 0` of line 267 never holds. -/
def getListData (s : ListState α) (index : Nat) : Except Fault (Option α) :=
  match s.list with
  | none => .ok none
  | some list =>
    if list.length = 0 then .ok none
    else getListDataLoop index (s.mem.brk + 1) s.mem list.head 0

/-- The `while (temp)` loop of `listContains`, lines 293-299, followed by the
`return false` of line 301. -/
def listContainsLoop (cmp : Option α → Option α → Int) (data : Option α) :
    Nat → Mem (ListNode α) → Nat → Except Fault Bool
  | 0, _, _ => .error .diverge
  | fuel + 1, m, temp =>
    if temp = 0 then .ok false
    else do
      let t ← m.read temp
      if cmp t.data data = 0 then .ok true
      else listContainsLoop cmp data fuel m t.next

/-- Function `listContains`, lines 287-302. -/
def listContains (s : ListState α) (data : Option α) : Except Fault Bool :=
  match s.list with
  | none => .ok false
  | some list =>
    if list.length = 0 ∨ data.isNone = true then .ok false
    else listContainsLoop list.compareData data (s.mem.brk + 1) s.mem list.head

/-- A heap block of `cap` bytes holding the NUL-terminated string `str`. -/
structure CharBuf where
  cap : Nat
  str : String

/-- The value of `strlen`: the number of bytes before the terminating NUL. -/
def strlen (t : String) : Nat := t.utf8ByteSize

/-- The call `strcat(buf, t)`: it writes the bytes of `t` and a terminating NUL
behind the bytes of `buf`, which must fit into the block. -/
def strcat (buf : CharBuf) (t : String) : Except Fault CharBuf :=
  if strlen buf.str + strlen t + 1 ≤ buf.cap then .ok { buf with str := buf.str ++ t }
  else .error .outOfBounds

/-- The `while (temp)` loop of `printList` (lines 313-327, `forward = true`,
following `next`) and of `printListReverse` (lines 341-355, `forward = false`,
following `prev`); the two loops are the same text up to that member.  Every
`realloc` succeeds and resizes the block to `strlen(str) + strlen(tempStr)`
bytes, as line 316 and line 344 ask. -/
def printLoop (pr : Option α → String) (forward : Bool) :
    Nat → Mem (ListNode α) → Nat → CharBuf → Except Fault CharBuf
  | 0, _, _, _ => .error .diverge
  | fuel + 1, m, temp, str =>
    if temp = 0 then .ok str
    else do
      let t ← m.read temp
      let tempStr := pr t.data
      let str : CharBuf := { cap := strlen str.str + strlen tempStr, str := str.str }
      let str ← strcat str tempStr
      printLoop pr forward fuel m (if forward then t.next else t.prev) str

/-- Function `printList`, lines 304-330, with the allocations succeeding.  The
argument `list` is dereferenced without a test. -/
def printList (s : ListState α) : Except Fault String :=
  match s.list with
  | none => .error .nullDeref
  | some list => do
    let str ← printLoop list.printData true (s.mem.brk + 1) s.mem list.head
      { cap := 1, str := "" }
    .ok str.str

/-- Function `printListReverse`, lines 332-358, with the allocations succeeding. -/
def printListReverse (s : ListState α) : Except Fault String :=
  match s.list with
  | none => .error .nullDeref
  | some list => do
    let str ← printLoop list.printData false (s.mem.brk + 1) s.mem list.tail
      { cap := 1, str := "" }
    .ok str.str

/-- Function `createListIterator`, lines 360-372. -/
def createListIterator (s : ListState α) : ListIterator :=
  match s.list with
  | none => { list := false, currentNode := 0 }
  | some list => { list := true, currentNode := list.head }

/-- Function `listIterateNext`, lines 374-382.  The argument is the cursor
behind the `ListIterator *` (`none` when it is `NULL`); the result is the
returned payload and the cursor afterwards. -/
def listIterateNext (s : ListState α) (iterator : Option ListIterator) :
    Except Fault (Option α × Option ListIterator) :=
  match iterator with
  | none => .ok (none, none)
  | some it =>
    if it.currentNode = 0 then .ok (none, some it)
    else do
      let c ← s.mem.read it.currentNode
      if c.next = 0 then .ok (none, some it)
      else
        let temp := it.currentNode
        let t ← s.mem.read temp
        .ok (t.data, some { it with currentNode := c.next })

/-- Function `listIteratePrev`, lines 384-392. -/
def listIteratePrev (s : ListState α) (iterator : Option ListIterator) :
    Except Fault (Option α × Option ListIterator) :=
  match iterator with
  | none => .ok (none, none)
  | some it =>
    if it.currentNode = 0 then .ok (none, some it)
    else do
      let c ← s.mem.read it.currentNode
      if c.prev = 0 then .ok (none, some it)
      else
        let temp := it.currentNode
        let t ← s.mem.read temp
        .ok (t.data, some { it with currentNode := c.prev })

/-- Function `resetListIterator`, lines 394-401.  Line 399 reads
`iterator->list->head` without testing `iterator->list`. -/
def resetListIterator (s : ListState α) (iterator : Option ListIterator) :
    Except Fault (Int × Option ListIterator) :=
  match iterator with
  | none => .ok (EXIT_FAILURE, none)
  | some it =>
    if it.list = false then .error .nullDeref
    else
      match s.list with
      | none => .error .badAccess
      | some list => .ok (EXIT_SUCCESS, some { it with currentNode := list.head })

/-- Call `listIterateNext` `k` times on the same cursor, collecting the
returned payloads in call order. -/
def iterateMany (s : ListState α) :
    Nat → Option ListIterator → Except Fault (List (Option α) × Option ListIterator)
  | 0, it => .ok ([], it)
  | k + 1, it => do
    let (d, it1) ← listIterateNext s it
    let (ds, it2) ← iterateMany s k it1
    .ok (d :: ds, it2)

/-- A well-formed table of size 4 with `hash(size, key) = key mod size` whose
bucket 1 holds two nodes: key 1 with payload "a", then key 5 with payload "b".
The chain is written down node by node. -/
def twoNodeBucket : TableState String :=
  { hTable := some { size := 4, table := fun i => if i = 1 then 1 else 0,
                     printData := fun _ => "", hashData := modHash },
    mem := { cells := fun p =>
               if p = 1 then some { key := 1, data := some "a", next := 2 }
               else if p = 2 then some { key := 5, data := some "b", next := 0 }
               else none,
             brk := 2, mallocOk := fun _ => true },
    destroyed := [] }

/-! ## HashTableAPI.c: printing -/

/-- The `while (temp)` loop of the table's `printList`, lines 169-183.  Every
`realloc` succeeds and resizes the block to `strlen(str) + strlen(tempStr) + 2`
bytes, as line 172 asks. -/
def printBucketLoop (pr : Option β → String) :
    Nat → Mem (HTableNode β) → Nat → CharBuf → Except Fault CharBuf
  | 0, _, _, _ => .error .diverge
  | fuel + 1, m, temp, str =>
    if temp = 0 then .ok str
    else do
      let t ← m.read temp
      let tempStr := pr t.data
      let str : CharBuf := { cap := strlen str.str + strlen tempStr + 2, str := str.str }
      let str ← strcat str tempStr
      printBucketLoop pr fuel m t.next str

/-- The `for` loop of the table's `printList`, lines 166-184, over the buckets
`i`, `i + 1`, ... below `size`; `n` counts the buckets still to visit. -/
def printBucketsFrom (t : HTable β) (m : Mem (HTableNode β)) :
    Nat → Nat → CharBuf → Except Fault CharBuf
  | 0, _, str => .ok str
  | n + 1, i, str => do
    let str ← printBucketLoop t.printData (m.brk + 1) m (t.table i) str
    printBucketsFrom t m n (i + 1) str

/-- Function `printList` of HashTableAPI.c, lines 158-187 (the header declares it
as `printTable`; the name `printList` is taken by the list), with the
allocations succeeding.  The argument `hTable` is dereferenced without a test. -/
def printTable (s : TableState β) : Except Fault String :=
  match s.hTable with
  | none => .error .nullDeref
  | some t => do
    let str ← printBucketsFrom t s.mem t.size 0 { cap := 1, str := "" }
    .ok str.str

/-! ## Observing the nodes of a list -/

/-- Nodes met when following `next` from `p` until `NULL`. -/
def walkNodes : Nat → Mem (ListNode α) → Nat → Except Fault (List (ListNode α))
  | 0, _, _ => .error .diverge
  | fuel + 1, m, p =>
    if p = 0 then .ok []
    else do
      let n ← m.read p
      let rest ← walkNodes fuel m n.next
      .ok (n :: rest)

/-- The nodes of the list, head to tail. -/
def listNodes (s : ListState α) : Except Fault (List (ListNode α)) :=
  match s.list with
  | none => .error .nullDeref
  | some list => walkNodes (s.mem.brk + 1) s.mem list.head

/-- The state in which the `List *` argument is `NULL`. -/
def absentList (α : Type) : ListState α :=
  { list := none, mem := Mem.empty (fun _ => true), destroyed := [] }

/-- The state in which the `HTable *` argument is `NULL`. -/
def absentTable (β : Type) : TableState β :=
  { hTable := none, mem := Mem.empty (fun _ => true), destroyed := [] }

/-! ## Lemmas on chains -/

@[simp] theorem firstAddr_nil (d : Nat) : firstAddr d ([] : List (Nat × Option α)) = d := rfl

@[simp] theorem firstAddr_cons (d : Nat) (x : Nat × Option α) (r : List (Nat × Option α)) :
    firstAddr d (x :: r) = x.1 := rfl

@[simp] theorem lastAddr_nil (d : Nat) : lastAddr d ([] : List (Nat × Option α)) = d := rfl

@[simp] theorem lastAddr_cons (d : Nat) (x : Nat × Option α) (r : List (Nat × Option α)) :
    lastAddr d (x :: r) = lastAddr x.1 r := rfl

@[simp] theorem Chain_nil (cells : Nat → Option (ListNode α)) (p n : Nat) :
    Chain cells p [] n = True := rfl

theorem Chain_cons (cells : Nat → Option (ListNode α)) (p n : Nat) (x : Nat × Option α)
    (r : List (Nat × Option α)) :
    Chain cells p (x :: r) n =
      (cells x.1 = some { data := x.2, prev := p, next := firstAddr n r } ∧
        Chain cells x.1 r n) := rfl

theorem firstAddr_append (d : Nat) (xs ys : List (Nat × Option α)) :
    firstAddr d (xs ++ ys) = firstAddr (firstAddr d ys) xs := by
  cases xs <;> rfl

theorem lastAddr_append (d : Nat) (xs ys : List (Nat × Option α)) :
    lastAddr d (xs ++ ys) = lastAddr (lastAddr d xs) ys := by
  induction xs generalizing d with
  | nil => rfl
  | cons x r ih => simp [ih]

theorem Chain.congr {cells cells' : Nat → Option (ListNode α)} {p n : Nat}
    {xs : List (Nat × Option α)} (h : Chain cells p xs n)
    (hc : ∀ x ∈ xs, cells' x.1 = cells x.1) : Chain cells' p xs n := by
  induction xs generalizing p with
  | nil => trivial
  | cons x r ih =>
    refine ⟨?_, ih h.2 (fun y hy => hc y (List.mem_cons_of_mem _ hy))⟩
    rw [hc x (List.mem_cons_self _ _)]
    exact h.1

theorem Chain.append {cells : Nat → Option (ListNode α)} {p n : Nat}
    {xs ys : List (Nat × Option α)} :
    Chain cells p (xs ++ ys) n ↔
      Chain cells p xs (firstAddr n ys) ∧ Chain cells (lastAddr p xs) ys n := by
  induction xs generalizing p with
  | nil => simp
  | cons x r ih =>
    simp only [List.cons_append, Chain_cons, lastAddr_cons, ih, firstAddr_append, and_assoc]

theorem Mem.read_of_cell {C : Type} {m : Mem C} {p : Nat} {c : C} (hp : p ≠ 0)
    (h : m.cells p = some c) : m.read p = .ok c := by
  simp [Mem.read, hp, h]

theorem walkNext_chain {m : Mem (ListNode α)} {p : Nat} {xs : List (Nat × Option α)}
    (h : Chain m.cells p xs 0) (hpos : ∀ x ∈ xs, x.1 ≠ 0) (fuel : Nat) (hf : xs.length < fuel) :
    walkNext fuel m (firstAddr 0 xs) = .ok (xs.map Prod.snd) := by
  induction xs generalizing p fuel with
  | nil =>
    cases fuel with
    | zero => omega
    | succ f => simp [walkNext]
  | cons x r ih =>
    cases fuel with
    | zero => omega
    | succ f =>
      have hx : x.1 ≠ 0 := hpos x (List.mem_cons_self _ _)
      have hr := ih h.2 (fun y hy => hpos y (List.mem_cons_of_mem _ hy)) f
        (by simp at hf; omega)
      simp [walkNext, hx, Mem.read_of_cell hx h.1, hr, bind, Except.bind]

theorem length_le_of_bound {xs : List (Nat × Option α)} {b : Nat}
    (hnd : (xs.map Prod.fst).Nodup) (hb : ∀ x ∈ xs, 0 < x.1 ∧ x.1 ≤ b) : xs.length ≤ b := by
  have h1 : (xs.map Prod.fst).toFinset ⊆ Finset.Icc 1 b := by
    intro a ha
    simp only [List.mem_toFinset, List.mem_map] at ha
    obtain ⟨x, hx, rfl⟩ := ha
    have := hb x hx
    simp only [Finset.mem_Icc]
    omega
  have h2 := Finset.card_le_card h1
  rw [List.toFinset_card_of_nodup hnd, Nat.card_Icc] at h2
  simpa using h2

theorem traversal_of_chain {s : ListState α} {l : LinkedList α} {xs : List (Nat × Option α)}
    (hl : s.list = some l) (hh : l.head = firstAddr 0 xs) (hc : Chain s.mem.cells 0 xs 0)
    (hnd : (xs.map Prod.fst).Nodup) (hb : ∀ x ∈ xs, 0 < x.1 ∧ x.1 ≤ s.mem.brk) :
    traversal s = .ok (xs.map Prod.snd) := by
  have hlen := length_le_of_bound hnd hb
  simp only [traversal, hl, hh]
  exact walkNext_chain hc (fun x hx => by have := hb x hx; omega) (s.mem.brk + 1) (by omega)

theorem Repr.traversal {E : Env α} {s : ListState α} {xs : List (Nat × Option α)}
    (h : Repr E s xs) : traversal s = .ok (xs.map Prod.snd) := by
  obtain ⟨l, hl, hh, -⟩ := h.list
  exact traversal_of_chain hl hh h.chain h.nodup h.bound

theorem Repr.lengthField {E : Env α} {s : ListState α} {xs : List (Nat × Option α)}
    (h : Repr E s xs) : lengthField s = some xs.length := by
  obtain ⟨l, hl, -, -, hlen, -⟩ := h.list
  simp [LibADT.lengthField, hl, hlen]

theorem createList_repr (E : Env α) : Repr E (createList E.ok E.pr E.cmp) [] := by
  refine ⟨⟨_, rfl, rfl, rfl, rfl, rfl, rfl⟩, rfl, trivial, by simp, by simp, fun _ _ => rfl⟩

theorem insertListFront_repr {E : Env α} {s : ListState α} {xs : List (Nat × Option α)}
    (h : Repr E s xs) (hok : E.ok s.mem.brk = true) (d : Option α) :
    ∃ s', insertListFront s d = .ok (EXIT_SUCCESS, s') ∧
      Repr E s' ((s.mem.brk + 1, d) :: xs) ∧ s'.destroyed = s.destroyed ∧
      s'.mem.brk = s.mem.brk + 1 := by
  obtain ⟨⟨l, hl, hh, ht, hlen, hcmp, hpr⟩, hmok, hc, hnd, hb, hfr⟩ := h
  rw [← hmok] at hok
  cases xs with
  | nil =>
    simp only [firstAddr, lastAddr] at hh ht
    apply Exists.intro
    refine ⟨?_, ?_, ?_, ?_⟩
    ·
      simp [insertListFront, hl, createListNode, Mem.malloc, hok, hh, ht]
      rfl
    · refine ⟨⟨_, rfl, rfl, rfl, by simp [hlen], hcmp, hpr⟩, hmok, ?_, by simp, ?_, ?_⟩
      · simp [Chain_cons]
      · simp
      · intro p hp
        have : p ≠ s.mem.brk + 1 := by simp only at hp; omega
        simpa [this] using hfr p (by simp only at hp; omega)
    · rfl
    · rfl
  | cons x r =>
    have hx := hb x (List.mem_cons_self _ _)
    have hx0 : x.1 ≠ 0 := by omega
    have hxa : x.1 ≠ s.mem.brk + 1 := by omega
    simp only [firstAddr_cons] at hh
    apply Exists.intro
    refine ⟨?_, ?_, ?_, ?_⟩
    ·
      simp [insertListFront, hl, createListNode, Mem.malloc, hok, hh, hx0, Mem.read, Mem.write, hxa, hc.1, bind, Except.bind]
      rfl
    · have hr1 : ∀ y ∈ r, y.1 ≠ x.1 := by
        intro y hy e
        simp only [List.map_cons, List.nodup_cons, List.mem_map] at hnd
        exact hnd.1 ⟨y, hy, e⟩
      have hr2 : ∀ y ∈ r, y.1 ≠ s.mem.brk + 1 := by
        intro y hy
        have := hb y (List.mem_cons_of_mem _ hy)
        omega
      refine ⟨⟨_, rfl, rfl, by simp [ht], by simp [hlen], hcmp, hpr⟩, hmok, ?_, ?_, ?_, ?_⟩
      · refine ⟨by simp [hxa.symm], by simp, hc.2.congr ?_⟩
        intro y hy
        simp [hr1 y hy, hr2 y hy]
      · simp only [List.map_cons, List.nodup_cons] at hnd ⊢
        refine ⟨?_, hnd⟩
        simp only [List.mem_cons, List.mem_map, not_or, not_exists, not_and]
        exact ⟨hxa.symm, fun y hy e => hr2 y hy e⟩
      · intro y hy
        rcases List.mem_cons.1 hy with rfl | hy
        · simp
        · have := hb y hy
          simp only
          omega
      · intro p hp
        have h1 : p ≠ s.mem.brk + 1 := by simp only at hp; omega
        have h2 : p ≠ x.1 := by simp only at hp; omega
        simpa [h1, h2] using hfr p (by simp only at hp; omega)
    · rfl
    · rfl

theorem firstAddr_pos {xs : List (Nat × Option α)} {b : Nat} (hne : xs ≠ [])
    (hb : ∀ x ∈ xs, 0 < x.1 ∧ x.1 ≤ b) : 0 < firstAddr 0 xs ∧ firstAddr 0 xs ≤ b := by
  cases xs with
  | nil => exact absurd rfl hne
  | cons x r => exact hb x (List.mem_cons_self _ _)

theorem eq_nil_or_snoc {β : Type} (xs : List β) : xs = [] ∨ ∃ L y, xs = L ++ [y] := by
  rcases List.eq_nil_or_concat xs with h | ⟨L, y, h⟩
  · exact Or.inl h
  · exact Or.inr ⟨L, y, by rw [h, List.concat_eq_append]⟩

theorem insertListBack_repr {E : Env α} {s : ListState α} {xs : List (Nat × Option α)}
    (h : Repr E s xs) (hok : E.ok s.mem.brk = true) (d : Option α) :
    ∃ s', insertListBack s d = .ok (EXIT_SUCCESS, s') ∧
      Repr E s' (xs ++ [(s.mem.brk + 1, d)]) ∧ s'.destroyed = s.destroyed ∧
      s'.mem.brk = s.mem.brk + 1 := by
  obtain ⟨⟨l, hl, hh, ht, hlen, hcmp, hpr⟩, hmok, hc, hnd, hb, hfr⟩ := h
  rw [← hmok] at hok
  rcases eq_nil_or_snoc xs with rfl | ⟨L, y, rfl⟩
  · simp only [firstAddr, lastAddr] at hh ht
    apply Exists.intro
    refine ⟨?_, ?_, ?_, ?_⟩
    · simp [insertListBack, hl, createListNode, Mem.malloc, hok, hh, ht]
      rfl
    · refine ⟨⟨_, rfl, rfl, rfl, by simp [hlen], hcmp, hpr⟩, hmok, ?_, by simp, ?_, ?_⟩
      · simp [Chain_cons]
      · simp
      · intro p hp
        have : p ≠ s.mem.brk + 1 := by simp only at hp; omega
        simpa [this] using hfr p (by simp only at hp; omega)
    · rfl
    · rfl
  · have hy := hb y (by simp)
    have hy0 : y.1 ≠ 0 := by omega
    have hya : y.1 ≠ s.mem.brk + 1 := by omega
    have hh0 : l.head ≠ 0 := by
      have := firstAddr_pos (by simp) hb
      omega
    simp only [lastAddr_append, lastAddr_cons, lastAddr_nil] at ht
    rw [Chain.append] at hc
    obtain ⟨hcL, hcy, -⟩ := hc
    simp only [firstAddr_nil, firstAddr_cons] at hcL hcy
    apply Exists.intro
    refine ⟨?_, ?_, ?_, ?_⟩
    · simp [insertListBack, hl, createListNode, Mem.malloc, hok, hh0, ht, hy0, Mem.read, Mem.write,
        hya, hcy, bind, Except.bind]
      rfl
    · have hL1 : ∀ z ∈ L, z.1 ≠ y.1 := by
        intro z hz e
        rw [List.map_append, List.nodup_append] at hnd
        exact hnd.2.2 (List.mem_map_of_mem _ hz) (by simp [e])
      have hL2 : ∀ z ∈ L, z.1 ≠ s.mem.brk + 1 := by
        intro z hz
        have := hb z (by simp [hz])
        omega
      refine ⟨⟨_, rfl, by rw [hh]; simp [firstAddr_append], by simp [lastAddr_append], by simp [hlen], hcmp, hpr⟩, hmok, ?_, ?_, ?_, ?_⟩
      · rw [Chain.append, Chain.append]
        refine ⟨⟨hcL.congr ?_, ?_⟩, ?_⟩
        · intro z hz
          simp [hL1 z hz, hL2 z hz]
        · simp [Chain_cons]
        · simp [Chain_cons, hya.symm, lastAddr_append]
      · rw [List.map_append, List.nodup_append]
        refine ⟨hnd, by simp, ?_⟩
        intro a ha hb'
        simp only [List.map_cons, List.map_nil, List.mem_singleton] at hb'
        obtain ⟨z, hz, rfl⟩ := List.mem_map.1 ha
        have := hb z hz
        omega
      · intro z hz
        rcases List.mem_append.1 hz with hz | hz
        · have := hb z hz
          simp only
          omega
        · simp only [List.mem_singleton] at hz
          subst hz
          simp
      · intro p hp
        have h1 : p ≠ s.mem.brk + 1 := by simp only at hp; omega
        have h2 : p ≠ y.1 := by simp only at hp; omega
        simpa [h1, h2] using hfr p (by simp only at hp; omega)
    · rfl
    · rfl

theorem runCalls_endInsert {E : Env α} (hok : ∀ k, E.ok k = true) (calls : List (ListCall α)) :
    ∀ {s : ListState α} {xs : List (Nat × Option α)}, Repr E s xs →
      calls.all ListCall.isEndInsert = true →
      ∃ s' xs', runCalls calls s = .ok (List.replicate calls.length EXIT_SUCCESS, s') ∧
        Repr E s' xs' ∧ xs'.map Prod.snd = calls.foldl endInsertSpec (xs.map Prod.snd) := by
  induction calls with
  | nil =>
    intro s xs h _
    exact ⟨s, xs, rfl, h, rfl⟩
  | cons c cs ih =>
    intro s xs h hall
    simp only [List.all_cons, Bool.and_eq_true] at hall
    cases c with
    | insertFront d =>
      obtain ⟨s1, h1, hr1, -, -⟩ := insertListFront_repr h (hok _) d
      obtain ⟨s2, xs2, h2, hr2, hm2⟩ := ih hr1 hall.2
      refine ⟨s2, xs2, ?_, hr2, ?_⟩
      · simp [runCalls, ListCall.run, h1, h2, bind, Except.bind, List.replicate_succ]
      · simpa [endInsertSpec] using hm2
    | insertBack d =>
      obtain ⟨s1, h1, hr1, -, -⟩ := insertListBack_repr h (hok _) d
      obtain ⟨s2, xs2, h2, hr2, hm2⟩ := ih hr1 hall.2
      refine ⟨s2, xs2, ?_, hr2, ?_⟩
      · simp [runCalls, ListCall.run, h1, h2, bind, Except.bind, List.replicate_succ]
      · simpa [endInsertSpec] using hm2
    | insertSorted d => simp [ListCall.isEndInsert] at hall
    | removeFront => simp [ListCall.isEndInsert] at hall
    | removeBack => simp [ListCall.isEndInsert] at hall
    | removeMatching d => simp [ListCall.isEndInsert] at hall

theorem foldl_endInsertSpec_length (calls : List (ListCall α)) :
    ∀ ds : List (Option α), calls.all ListCall.isEndInsert = true →
      (calls.foldl endInsertSpec ds).length = ds.length + calls.length := by
  induction calls with
  | nil => intro ds _; rfl
  | cons c cs ih =>
    intro ds hall
    simp only [List.all_cons, Bool.and_eq_true] at hall
    rw [List.foldl_cons, ih _ hall.2]
    cases c <;> simp [ListCall.isEndInsert] at hall <;> simp [endInsertSpec] <;> omega

theorem Repr.afterFailedMalloc {E : Env α} {s : ListState α} {xs : List (Nat × Option α)}
    (h : Repr E s xs) : Repr E s.afterFailedMalloc xs := by
  obtain ⟨hl, hmok, hc, hnd, hb, hfr⟩ := h
  refine ⟨hl, hmok, hc, hnd, ?_, ?_⟩
  · intro x hx
    have := hb x hx
    simp only [ListState.afterFailedMalloc]
    omega
  · intro p hp
    exact hfr p (by simp only [ListState.afterFailedMalloc] at hp; omega)

theorem insertListFront_fail {E : Env α} {s : ListState α} {xs : List (Nat × Option α)}
    (h : Repr E s xs) (hok : E.ok s.mem.brk = false) (d : Option α) :
    insertListFront s d = .ok (EXIT_FAILURE, s.afterFailedMalloc) := by
  obtain ⟨⟨l, hl, -⟩, hmok, -⟩ := h
  rw [← hmok] at hok
  simp [insertListFront, hl, createListNode, Mem.malloc, hok, ListState.afterFailedMalloc]

theorem insertListBack_fail {E : Env α} {s : ListState α} {xs : List (Nat × Option α)}
    (h : Repr E s xs) (hok : E.ok s.mem.brk = false) (d : Option α) :
    insertListBack s d = .ok (EXIT_FAILURE, s.afterFailedMalloc) := by
  obtain ⟨⟨l, hl, -⟩, hmok, -⟩ := h
  rw [← hmok] at hok
  simp [insertListBack, hl, createListNode, Mem.malloc, hok, ListState.afterFailedMalloc]

theorem removeListFront_chain {E : Env α} {s : ListState α} {x : Nat × Option α}
    {r : List (Nat × Option α)} (h : Repr E s (x :: r)) :
    ∃ s' l, s.list = some l ∧ removeListFront s = .ok (EXIT_SUCCESS, s') ∧
      s'.list = some { l with head := firstAddr 0 r } ∧ Chain s'.mem.cells 0 r 0 ∧
      s'.mem.brk = s.mem.brk ∧ s'.destroyed = x.2 :: s.destroyed ∧
      s'.mem.cells x.1 = none := by
  obtain ⟨⟨l, hl, hh, ht, hlen, hcmp, hpr⟩, hmok, hc, hnd, hb, hfr⟩ := h
  have hx := hb x (List.mem_cons_self _ _)
  have hx0 : x.1 ≠ 0 := by omega
  have hlen0 : l.length ≠ 0 := by simp [hlen]
  simp only [firstAddr_cons] at hh
  cases r with
  | nil =>
    apply Exists.intro
    refine ⟨l, hl, ?_, ?_, ?_, ?_, ?_, ?_⟩
    · simp [removeListFront, hl, hlen0, hh, Mem.read, Mem.free, hx0, hc.1, bind, Except.bind]
      rfl
    · simp
    · trivial
    · rfl
    · rfl
    · simp
  | cons u r' =>
    have hu := hb u (by simp)
    have hu0 : u.1 ≠ 0 := by omega
    have hux : u.1 ≠ x.1 := by
      intro e
      simp only [List.map_cons, List.nodup_cons, List.mem_cons, not_or] at hnd
      exact hnd.1.1 e.symm
    have hr1 : ∀ y ∈ r', y.1 ≠ x.1 := by
      intro y hy e
      simp only [List.map_cons, List.nodup_cons, List.mem_cons, List.mem_map, not_or] at hnd
      exact hnd.1.2 ⟨y, hy, e⟩
    have hr2 : ∀ y ∈ r', y.1 ≠ u.1 := by
      intro y hy e
      simp only [List.map_cons, List.nodup_cons, List.mem_cons, List.mem_map, not_or] at hnd
      exact hnd.2.1 ⟨y, hy, e⟩
    have hcx := hc.1
    have hcu := hc.2.1
    simp only [firstAddr_cons] at hcx
    apply Exists.intro
    refine ⟨l, hl, ?_, ?_, ?_, ?_, ?_, ?_⟩
    · simp [removeListFront, hl, hlen0, hh, Mem.read, Mem.write, Mem.free, hx0, hu0, hcx, hcu,
        hux.symm, bind, Except.bind]
      rfl
    · simp
    · refine ⟨by simp [hux], hc.2.2.congr ?_⟩
      intro y hy
      simp [hr1 y hy, hr2 y hy]
    · rfl
    · rfl
    · simp

theorem insertSortedLoop_chain (cmp : Option α → Option α → Int) {m : Mem (ListNode α)}
    {a : Nat} {d : Option α} (ha0 : a ≠ 0)
    (hma : m.cells a = some { data := d, prev := 0, next := 0 }) :
    ∀ (ys : List (Nat × Option α)) (prv fuel : Nat), Chain m.cells prv ys 0 →
      (∀ y ∈ ys, y.1 ≠ 0 ∧ y.1 ≠ a) → (ys.map Prod.fst).Nodup → ys.length < fuel →
      (∀ b, ys.getLast? = some b → ¬ cmp d b.2 > 0) →
      ∃ r, insertSortedLoop cmp fuel m a (firstAddr 0 ys) = .ok r ∧
        (seamInsert cmp (a, d) ys = none → r = none) ∧
        (∀ ys', seamInsert cmp (a, d) ys = some ys' →
          ∃ m', r = some m' ∧ Chain m'.cells prv ys' 0 ∧ m'.brk = m.brk ∧
            m'.mallocOk = m.mallocOk ∧
            (∀ q, q ≠ a → (∀ y ∈ ys, y.1 ≠ q) → m'.cells q = m.cells q)) := by
  intro ys
  induction ys with
  | nil =>
    intro prv fuel _ _ _ hf _
    cases fuel with
    | zero => omega
    | succ f => exact ⟨none, by simp [insertSortedLoop], fun _ => rfl, by simp [seamInsert]⟩
  | cons t rest ih =>
    intro prv fuel hc hne hnd hf hlast
    cases fuel with
    | zero => omega
    | succ f =>
      have ht := hne t (List.mem_cons_self _ _)
      have hct := hc.1
      have hrest := ih t.1 f hc.2 (fun y hy => hne y (List.mem_cons_of_mem _ hy))
        (by simp only [List.map_cons, List.nodup_cons] at hnd; exact hnd.2)
        (by simp at hf; omega)
      cases rest with
      | nil =>
        have hl : ¬ cmp d t.2 > 0 := hlast t rfl
        obtain ⟨r, hr, hrn, -⟩ := hrest (by simp)
        simp only [firstAddr_nil] at hr hct
        refine ⟨r, ?_, fun _ => hrn rfl, by simp [seamInsert]⟩
        simp only [gt_iff_lt] at hl
        simp [insertSortedLoop, ht.1, Mem.read, ha0, hma, hct, hl, hr, bind, Except.bind]
      | cons u post =>
        have hu := hne u (by simp)
        have hcu := hc.2.1
        simp only [firstAddr_cons] at hct
        have hut : u.1 ≠ t.1 := by
          intro e
          simp only [List.map_cons, List.nodup_cons, List.mem_cons, not_or] at hnd
          exact hnd.1.1 e.symm
        by_cases hseam : cmp d t.2 > 0 ∧ cmp d u.2 ≤ 0
        · have hp1 : ∀ y ∈ post, y.1 ≠ t.1 := by
            intro y hy e
            simp only [List.map_cons, List.nodup_cons, List.mem_cons, List.mem_map, not_or] at hnd
            exact hnd.1.2 ⟨y, hy, e⟩
          have hp2 : ∀ y ∈ post, y.1 ≠ u.1 := by
            intro y hy e
            simp only [List.map_cons, List.nodup_cons, List.mem_cons, List.mem_map, not_or] at hnd
            exact hnd.2.1 ⟨y, hy, e⟩
          have hp3 : ∀ y ∈ post, y.1 ≠ a := fun y hy => (hne y (by simp [hy])).2
          obtain ⟨h1, h2⟩ := hseam
          simp only [gt_iff_lt] at h1
          apply Exists.intro
          refine ⟨?_, ?_, ?_⟩
          · simp [insertSortedLoop, ht.1, ht.2, hu.1, hu.2, Mem.read, Mem.write, ha0, hma, hct, hcu,
              h1, h2, hut, hut.symm, Ne.symm ht.2, Ne.symm hu.2, bind, Except.bind]
            rfl
          · simp [seamInsert, h1, h2]
          · intro ys' hys'
            simp [seamInsert, h1, h2] at hys'
            subst hys'
            refine ⟨_, rfl, ?_, rfl, rfl, ?_⟩
            · refine ⟨by simp, by simp [Ne.symm ht.2, Ne.symm hu.2, Ne.symm hut], by simp [hut, hu.2], hc.2.2.congr ?_⟩
              intro y hy
              simp [hp1 y hy, hp2 y hy, hp3 y hy]
            · intro q hqa hq
              have hqt : q ≠ t.1 := fun e => hq t (by simp) e.symm
              have hqu : q ≠ u.1 := fun e => hq u (by simp) e.symm
              simp [hqa, hqt, hqu]
        · obtain ⟨r, hr, hrn, hrs⟩ := hrest (by simpa using hlast)
          simp only [firstAddr_cons] at hr
          have hstep : insertSortedLoop cmp (f + 1) m a t.1 = insertSortedLoop cmp f m a u.1 := by
            by_cases h1 : 0 < cmp d t.2
            · have h2 : ¬ cmp d u.2 ≤ 0 := fun h2 => hseam ⟨h1, h2⟩
              simp only [not_le] at h2
              simp [insertSortedLoop, ht.1, hu.1, Mem.read, ha0, hma, hct, hcu, h1, h2, bind,
                Except.bind]
            · simp [insertSortedLoop, ht.1, Mem.read, ha0, hma, hct, h1, bind, Except.bind]
          refine ⟨r, by rw [firstAddr_cons, hstep, hr], ?_, ?_⟩
          · intro hnone
            apply hrn
            simpa [seamInsert, hseam] using hnone
          · intro ys' hys'
            simp only [seamInsert, hseam, if_false, Option.map_eq_some'] at hys'
            obtain ⟨zs, hzs, rfl⟩ := hys'
            obtain ⟨m', hm', hch, hbrk, hmok, hfr⟩ := hrs zs hzs
            have hfirst : firstAddr 0 zs = u.1 := by
              by_cases hsu : cmp d u.2 > 0 ∧ ∃ v post', post = v :: post' ∧ cmp d v.2 ≤ 0
              · obtain ⟨hsu1, v, post', rfl, hsu2⟩ := hsu
                simp [seamInsert, hsu1, hsu2] at hzs
                subst hzs
                rfl
              · cases post with
                | nil => simp [seamInsert] at hzs
                | cons v post' =>
                  have : ¬ (cmp d u.2 > 0 ∧ cmp d v.2 ≤ 0) := fun h => hsu ⟨h.1, v, post', rfl, h.2⟩
                  simp only [seamInsert, this, if_false, Option.map_eq_some'] at hzs
                  obtain ⟨ws, -, rfl⟩ := hzs
                  rfl
            refine ⟨m', hm', ⟨?_, hch⟩, hbrk, hmok, ?_⟩
            · rw [hfr t.1 ht.2 ?_, hct]
              · simp [hfirst]
              · intro y hy e
                rcases List.mem_cons.1 hy with rfl | hy
                · exact hut e
                · simp only [List.map_cons, List.nodup_cons, List.mem_cons, List.mem_map, not_or] at hnd
                  exact hnd.1.2 ⟨y, hy, e⟩
            · intro q hqa hq
              exact hfr q hqa (fun y hy => hq y (List.mem_cons_of_mem _ hy))
theorem lastNode_snoc {β : Type} (x b : β) (L : List β) : lastNode x (L ++ [b]) = b := by
  induction L generalizing x with
  | nil => rfl
  | cons y r ih => simpa [lastNode] using ih y

theorem lastNode_of_eq_snoc {β : Type} {f b : β} {r L : List β} (h : f :: r = L ++ [b]) :
    lastNode f r = b := by
  have : lastNode f (f :: r) = lastNode f r := rfl
  rw [← this, h, lastNode_snoc]

theorem getLast?_cons_eq_lastNode {β : Type} (f : β) (r : List β) :
    (f :: r).getLast? = some (lastNode f r) := by
  induction r generalizing f with
  | nil => rfl
  | cons y r ih => simpa [lastNode, List.getLast?_cons_cons] using ih y

theorem seamInsert_split {cmp : Option α → Option α → Int} {x : Nat × Option α} :
    ∀ {ys ys' : List (Nat × Option α)}, seamInsert cmp x ys = some ys' →
      ∃ pre t u post, ys = pre ++ t :: u :: post ∧ ys' = pre ++ t :: x :: u :: post ∧
        cmp x.2 t.2 > 0 ∧ cmp x.2 u.2 ≤ 0 := by
  intro ys
  induction ys with
  | nil => intro ys' h; simp [seamInsert] at h
  | cons t rest ih =>
    intro ys' h
    cases rest with
    | nil => simp [seamInsert] at h
    | cons u post =>
      by_cases hs : cmp x.2 t.2 > 0 ∧ cmp x.2 u.2 ≤ 0
      · simp only [seamInsert, hs, and_self, if_true, Option.some.injEq] at h
        exact ⟨[], t, u, post, rfl, h.symm, hs.1, hs.2⟩
      · simp only [seamInsert, hs, if_false, Option.map_eq_some'] at h
        obtain ⟨zs, hzs, rfl⟩ := h
        obtain ⟨pre, t', u', post', h1, h2, h3, h4⟩ := ih hzs
        exact ⟨t :: pre, t', u', post', by simp [h1], by simp [h2], h3, h4⟩
theorem Chain.last_cell {cells : Nat → Option (ListNode α)} {p n : Nat}
    {L : List (Nat × Option α)} {b : Nat × Option α} (h : Chain cells p (L ++ [b]) n) :
    cells b.1 = some { data := b.2, prev := lastAddr p L, next := n } := by
  rw [Chain.append] at h
  simpa [Chain_cons] using h.2

theorem insertListFront_total {E : Env α} {s : ListState α} {xs : List (Nat × Option α)}
    (h : Repr E s xs) (d : Option α) :
    ∃ r s' xs', insertListFront s d = .ok (r, s') ∧ Repr E s' xs' ∧
      s'.destroyed = s.destroyed ∧
      ((r = EXIT_SUCCESS ∧ E.ok s.mem.brk = true ∧ xs' = (s.mem.brk + 1, d) :: xs) ∨
        (r = EXIT_FAILURE ∧ xs' = xs ∧ E.ok s.mem.brk = false)) := by
  cases hok : E.ok s.mem.brk with
  | true =>
    obtain ⟨s', h1, h2, h3, -⟩ := insertListFront_repr h hok d
    exact ⟨_, s', _, h1, h2, h3, Or.inl ⟨rfl, rfl, rfl⟩⟩
  | false =>
    exact ⟨_, _, xs, insertListFront_fail h hok d, h.afterFailedMalloc, rfl, Or.inr ⟨rfl, rfl, rfl⟩⟩

theorem insertListBack_total {E : Env α} {s : ListState α} {xs : List (Nat × Option α)}
    (h : Repr E s xs) (d : Option α) :
    ∃ r s' xs', insertListBack s d = .ok (r, s') ∧ Repr E s' xs' ∧
      s'.destroyed = s.destroyed ∧
      ((r = EXIT_SUCCESS ∧ E.ok s.mem.brk = true ∧ xs' = xs ++ [(s.mem.brk + 1, d)]) ∨
        (r = EXIT_FAILURE ∧ xs' = xs ∧ E.ok s.mem.brk = false)) := by
  cases hok : E.ok s.mem.brk with
  | true =>
    obtain ⟨s', h1, h2, h3, -⟩ := insertListBack_repr h hok d
    exact ⟨_, s', _, h1, h2, h3, Or.inl ⟨rfl, rfl, rfl⟩⟩
  | false =>
    exact ⟨_, _, xs, insertListBack_fail h hok d, h.afterFailedMalloc, rfl, Or.inr ⟨rfl, rfl, rfl⟩⟩

theorem insertSortedList_repr {E : Env α} {s : ListState α} {xs : List (Nat × Option α)}
    (h : Repr E s xs) (d : Option α) :
    ∃ r s' xs', insertSortedList s d = .ok (r, s') ∧ Repr E s' xs' ∧
      s'.destroyed = s.destroyed ∧
      ((r = EXIT_SUCCESS ∧ E.ok s.mem.brk = true ∧
          insertSortedModel E.cmp (s.mem.brk + 1, d) xs = some xs') ∨
        (r = EXIT_FAILURE ∧ xs' = xs ∧
          (E.ok s.mem.brk = false ∨
            insertSortedModel E.cmp (s.mem.brk + 1, d) xs = none))) := by
  have h0 := h
  obtain ⟨⟨l, hl, hh, ht, hlen, hcmp, hpr⟩, hmok, hc, hnd, hb, hfr⟩ := h
  cases xs with
  | nil =>
    simp only [firstAddr_nil, lastAddr_nil] at hh ht
    have e : insertSortedList s d = insertListFront s d := by
      simp [insertSortedList, hl, hh, ht]
    obtain ⟨r, s', xs', h1, h2, h3, h4⟩ := insertListFront_total h0 d
    refine ⟨r, s', xs', e ▸ h1, h2, h3, ?_⟩
    rcases h4 with ⟨h4, h5, h6⟩ | ⟨h4, h5, h6⟩
    · exact Or.inl ⟨h4, h5, by simp [insertSortedModel, h6]⟩
    · exact Or.inr ⟨h4, h5, Or.inl h6⟩
  | cons f r =>
    obtain ⟨L, b, hLb⟩ : ∃ L b, f :: r = L ++ [b] := by
      rcases eq_nil_or_snoc (f :: r) with h | h
      · exact absurd h (by simp)
      · exact h
    have hlast : lastNode f r = b := lastNode_of_eq_snoc hLb
    have hf := hb f (List.mem_cons_self _ _)
    have hf0 : f.1 ≠ 0 := by omega
    have hbb := hb b (by rw [hLb]; simp)
    have hb0 : b.1 ≠ 0 := by omega
    have hlen0 : l.length ≠ 0 := by simp [hlen]
    simp only [firstAddr_cons] at hh
    have ht' : l.tail = b.1 := by rw [ht, hLb, lastAddr_append]; rfl
    have hcf := hc.1
    have hcb : s.mem.cells b.1 = some { data := b.2, prev := lastAddr 0 L, next := 0 } :=
      Chain.last_cell (hLb ▸ hc)
    have hgf : getFromListFront s = .ok f.2 := by
      simp [getFromListFront, hl, hlen0, hh, Mem.read, hf0, hcf, bind, Except.bind]
    have hgb : getFromListBack s = .ok b.2 := by
      simp [getFromListBack, hl, hlen0, ht', Mem.read, hb0, hcb, bind, Except.bind]
    by_cases c1 : E.cmp d f.2 < 0
    · have e : insertSortedList s d = insertListFront s d := by
        simp [insertSortedList, hl, hh, hf0, hgf, hcmp, c1, bind, Except.bind]
      obtain ⟨r', s', xs', h1, h2, h3, h4⟩ := insertListFront_total h0 d
      refine ⟨r', s', xs', e ▸ h1, h2, h3, ?_⟩
      rcases h4 with ⟨h4, h5, h6⟩ | ⟨h4, h5, h6⟩
      · exact Or.inl ⟨h4, h5, by simp [insertSortedModel, h6, c1]⟩
      · exact Or.inr ⟨h4, h5, Or.inl h6⟩
    · by_cases c2 : E.cmp d b.2 ≥ 0
      · have e : insertSortedList s d = insertListBack s d := by
          simp only [ge_iff_le] at c2
          simp [insertSortedList, hl, hh, hf0, hgf, hgb, hcmp, c1, c2, bind, Except.bind]
        obtain ⟨r', s', xs', h1, h2, h3, h4⟩ := insertListBack_total h0 d
        refine ⟨r', s', xs', e ▸ h1, h2, h3, ?_⟩
        rcases h4 with ⟨h4, h5, h6⟩ | ⟨h4, h5, h6⟩
        · exact Or.inl ⟨h4, h5, by simp [insertSortedModel, h6, c1, hlast, c2]⟩
        · exact Or.inr ⟨h4, h5, Or.inl h6⟩
      · have hmodel : insertSortedModel E.cmp (s.mem.brk + 1, d) (f :: r) =
            seamInsert E.cmp (s.mem.brk + 1, d) (f :: r) := by
          simp [insertSortedModel, c1, hlast, c2]
        rw [hmodel]
        cases hokb : E.ok s.mem.brk with
        | false =>
          have hok' : s.mem.mallocOk s.mem.brk = false := by rw [hmok]; exact hokb
          refine ⟨EXIT_FAILURE, s.afterFailedMalloc, f :: r, ?_, h0.afterFailedMalloc, rfl,
            Or.inr ⟨rfl, rfl, Or.inl rfl⟩⟩
          simp only [ge_iff_le, not_le] at c2
          simp [insertSortedList, hl, hh, hf0, hgf, hgb, hcmp, c1, c2, createListNode, Mem.malloc,
            hok', bind, Except.bind, ListState.afterFailedMalloc]
        | true =>
          have hok' : s.mem.mallocOk s.mem.brk = true := by rw [hmok]; exact hokb
          have hxs1 : ∀ y ∈ f :: r, y.1 ≠ 0 ∧ y.1 ≠ s.mem.brk + 1 := by
            intro y hy
            have := hb y hy
            omega
          have hcells : ∀ y ∈ f :: r,
              (fun q => if q = s.mem.brk + 1 then
                  some ({ data := d, prev := 0, next := 0 } : ListNode α)
                else s.mem.cells q) y.1 = s.mem.cells y.1 := by
            intro y hy
            simp [(hxs1 y hy).2]
          have hlen1 := length_le_of_bound hnd hb
          obtain ⟨res, hres, hnone, hsome⟩ :=
            insertSortedLoop_chain E.cmp
              (m := { cells := fun q => if q = s.mem.brk + 1 then
                          some { data := d, prev := 0, next := 0 } else s.mem.cells q,
                      brk := s.mem.brk + 1, mallocOk := s.mem.mallocOk })
              (a := s.mem.brk + 1) (d := d) (by omega) (by simp) (f :: r) 0
              (s.mem.brk + 1 + 1) (hc.congr hcells) hxs1 hnd (by omega)
              (by
                intro b' hb'
                rw [getLast?_cons_eq_lastNode, hlast] at hb'
                cases hb'
                omega)
          simp only [firstAddr_cons] at hres
          simp only [ge_iff_le, not_le] at c2
          have hrun : insertSortedList s d =
              (match res with
                | some m => .ok (EXIT_SUCCESS,
                    { s with mem := m, list := some { l with length := l.length + 1 } })
                | none => .ok (EXIT_FAILURE,
                    { s with mem :=
                      { cells := fun q => if q = s.mem.brk + 1 then none
                          else if q = s.mem.brk + 1 then
                            some { data := d, prev := 0, next := 0 } else s.mem.cells q,
                        brk := s.mem.brk + 1, mallocOk := s.mem.mallocOk } })) := by
            simp [insertSortedList, hl, hh, hf0, hgf, hgb, hcmp, c1, c2, createListNode,
              Mem.malloc, hok', bind, Except.bind, hres]
            cases res with
            | none => simp [Mem.free, not_le.mpr c2]
            | some m' => simp [not_le.mpr c2]
          cases hsi : seamInsert E.cmp (s.mem.brk + 1, d) (f :: r) with
          | none =>
            have hr := hnone hsi
            subst hr
            refine ⟨_, _, f :: r, hrun, ?_, rfl, Or.inr ⟨rfl, rfl, Or.inr rfl⟩⟩
            refine ⟨⟨l, hl, hh, ht, hlen, hcmp, hpr⟩, hmok, hc.congr ?_, hnd, ?_, ?_⟩
            · intro y hy
              simp [(hxs1 y hy).2]
            · intro y hy
              have := hb y hy
              simp only
              omega
            · intro p hp
              simp only at hp
              have : p ≠ s.mem.brk + 1 := by omega
              simpa [this] using hfr p (by omega)
          | some ys' =>
            obtain ⟨m', hr, hch, hbrk, hmok', hframe⟩ := hsome ys' hsi
            subst hr
            obtain ⟨pre, t, u, post, hxs, hys, -, -⟩ := seamInsert_split hsi
            have hperm : ys'.Perm ((s.mem.brk + 1, d) :: (f :: r)) := by
              rw [hys, hxs]
              have := @List.perm_middle _ (s.mem.brk + 1, d) (pre ++ [t]) (u :: post)
              simpa using this
            refine ⟨_, _, ys', hrun, ?_, rfl, Or.inl ⟨rfl, rfl, rfl⟩⟩
            refine ⟨⟨_, rfl, ?_, ?_, ?_, hcmp, hpr⟩, ?_, hch, ?_, ?_, ?_⟩
            · simp only [hh, hys]
              rw [show f.1 = firstAddr 0 (f :: r) from rfl, hxs]
              simp [firstAddr_append]
            · simp only [ht, hys]
              rw [hxs]
              simp [lastAddr_append]
            · simp only [hlen, hperm.length_eq]
              simp
            · simp only [hmok', hmok]
            · rw [(hperm.map Prod.fst).nodup_iff]
              simp only [List.map_cons, List.nodup_cons] at hnd ⊢
              refine ⟨?_, hnd⟩
              intro hmem
              rcases List.mem_cons.1 hmem with e | hmem
              · exact (hxs1 f (by simp)).2 e.symm
              · obtain ⟨y, hy, e⟩ := List.mem_map.1 hmem
                exact (hxs1 y (List.mem_cons_of_mem _ hy)).2 e
            · intro y hy
              rcases List.mem_cons.1 (hperm.mem_iff.1 hy) with rfl | hy
              · simp [hbrk]
              · have := hb y hy
                simp only [hbrk]
                omega
            · intro p hp
              simp only [hbrk] at hp
              rw [hframe p (by omega) (fun y hy e => by have := hb y hy; omega)]
              have : p ≠ s.mem.brk + 1 := by omega
              simpa [this] using hfr p (by omega)

theorem runCalls_insert_repr {E : Env α} (calls : List (ListCall α)) :
    ∀ {s : ListState α} {xs : List (Nat × Option α)}, Repr E s xs →
      calls.all ListCall.isInsert = true →
      ∃ rs s' xs', runCalls calls s = .ok (rs, s') ∧ Repr E s' xs' := by
  induction calls with
  | nil =>
    intro s xs h _
    exact ⟨[], s, xs, rfl, h⟩
  | cons c cs ih =>
    intro s xs h hall
    simp only [List.all_cons, Bool.and_eq_true] at hall
    have step : ∃ r s1 xs1, c.run s = .ok (r, s1) ∧ Repr E s1 xs1 := by
      cases c with
      | insertFront d =>
        obtain ⟨r, s1, xs1, h1, h2, -⟩ := insertListFront_total h d
        exact ⟨r, s1, xs1, h1, h2⟩
      | insertBack d =>
        obtain ⟨r, s1, xs1, h1, h2, -⟩ := insertListBack_total h d
        exact ⟨r, s1, xs1, h1, h2⟩
      | insertSorted d =>
        obtain ⟨r, s1, xs1, h1, h2, -⟩ := insertSortedList_repr h d
        exact ⟨r, s1, xs1, h1, h2⟩
      | removeFront => simp [ListCall.isInsert] at hall
      | removeBack => simp [ListCall.isInsert] at hall
      | removeMatching d => simp [ListCall.isInsert] at hall
    obtain ⟨r, s1, xs1, h1, hr1⟩ := step
    obtain ⟨rs, s2, xs2, h2, hr2⟩ := ih hr1 hall.2
    exact ⟨r :: rs, s2, xs2, by simp [runCalls, h1, h2, bind, Except.bind], hr2⟩

theorem built_repr {ok : Nat → Bool} {pr : Option α → String}
    {cmp : Option α → Option α → Int} {calls : List (ListCall α)} {rs : List Int}
    {s : ListState α} (hins : calls.all ListCall.isInsert = true)
    (hrun : runCalls calls (createList ok pr cmp) = .ok (rs, s)) :
    ∃ xs, Repr ⟨ok, pr, cmp⟩ s xs := by
  obtain ⟨rs', s', xs, h1, h2⟩ :=
    runCalls_insert_repr (E := ⟨ok, pr, cmp⟩) calls (createList_repr ⟨ok, pr, cmp⟩) hins
  have e : createList (⟨ok, pr, cmp⟩ : Env α).ok (⟨ok, pr, cmp⟩ : Env α).pr
      (⟨ok, pr, cmp⟩ : Env α).cmp = createList ok pr cmp := rfl
  rw [e, hrun] at h1
  cases h1
  exact ⟨xs, h2⟩
theorem Chain.mid_cell {cells : Nat → Option (ListNode α)} {p n : Nat}
    {pre post : List (Nat × Option α)} {t : Nat × Option α}
    (h : Chain cells p (pre ++ t :: post) n) :
    cells t.1 = some { data := t.2, prev := lastAddr p pre, next := firstAddr n post } := by
  rw [Chain.append] at h
  exact h.2.1

theorem removeFromListUnlink_chain {l : LinkedList α} {m : Mem (ListNode α)}
    {D : List (Option α)} {pre post : List (Nat × Option α)} {t : Nat × Option α}
    (hh : l.head = firstAddr 0 (pre ++ t :: post)) (ht : l.tail = lastAddr 0 (pre ++ t :: post))
    (hc : Chain m.cells 0 (pre ++ t :: post) 0)
    (hnd : ((pre ++ t :: post).map Prod.fst).Nodup)
    (hb : ∀ x ∈ pre ++ t :: post, 0 < x.1 ∧ x.1 ≤ m.brk) :
    ∃ s' l', removeFromListUnlink l m D t.1 = .ok s' ∧ s'.list = some l' ∧
      l'.head = firstAddr 0 (pre ++ post) ∧ Chain s'.mem.cells 0 (pre ++ post) 0 ∧
      s'.mem.brk = m.brk ∧ s'.mem.mallocOk = m.mallocOk ∧ s'.destroyed = t.2 :: D ∧
      l'.length = l.length ∧ l'.compareData = l.compareData ∧ l'.printData = l.printData := by
  have hct := hc.mid_cell
  have ht0 : t.1 ≠ 0 := by have := hb t (by simp); omega
  have hpre : ∀ y ∈ pre, y.1 ≠ t.1 := by
    intro y hy e
    rw [List.map_append, List.nodup_append] at hnd
    exact hnd.2.2 (List.mem_map_of_mem _ hy) (by simp [e])
  have hpost : ∀ y ∈ post, y.1 ≠ t.1 := by
    intro y hy e
    rw [List.map_append, List.nodup_append] at hnd
    simp only [List.map_cons, List.nodup_cons, List.mem_map, not_exists, not_and] at hnd
    exact hnd.2.1.1 y hy e
  rcases eq_nil_or_snoc pre with rfl | ⟨pre', p, rfl⟩
  · -- `temp` is the head
    simp only [List.nil_append, firstAddr_cons, lastAddr_nil] at hh hct ⊢
    cases post with
    | nil =>
      simp only [firstAddr_nil] at hct
      apply Exists.intro
      apply Exists.intro
      refine ⟨?_, ?_, ?_, ?_, ?_, ?_, ?_, ?_, ?_, ?_⟩
      · simp [removeFromListUnlink, Mem.read, Mem.free, ht0, hct, hh, bind, Except.bind]
        rfl
      · rfl
      · rfl
      · trivial
      · rfl
      · rfl
      · rfl
      · rfl
      · rfl
      · rfl
    | cons u post' =>
      have hcu : m.cells u.1 = some { data := u.2, prev := t.1, next := firstAddr 0 post' } :=
        hc.2.1
      have hu0 : u.1 ≠ 0 := by have := hb u (by simp); omega
      have hut : u.1 ≠ t.1 := hpost u (by simp)
      simp only [firstAddr_cons] at hct
      apply Exists.intro
      apply Exists.intro
      refine ⟨?_, ?_, ?_, ?_, ?_, ?_, ?_, ?_, ?_, ?_⟩
      · simp [removeFromListUnlink, Mem.read, Mem.write, Mem.free, ht0, hu0, hct, hcu, hh, hut,
          hut.symm, bind, Except.bind]
        rfl
      · rfl
      · rfl
      · refine ⟨by simp [hut], hc.2.2.congr ?_⟩
        intro y hy
        have h1 : y.1 ≠ t.1 := hpost y (by simp [hy])
        have h2 : y.1 ≠ u.1 := by
          intro e
          simp only [List.nil_append, List.map_cons, List.nodup_cons, List.mem_cons, List.mem_map,
            not_or] at hnd
          exact hnd.2.1 ⟨y, hy, e⟩
        simp [h1, h2]
      · rfl
      · rfl
      · rfl
      · rfl
      · rfl
      · rfl
  · -- `temp` has the predecessor `p`
    have hassoc : (pre' ++ [p]) ++ t :: post = pre' ++ p :: t :: post := by simp
    have hcp : m.cells p.1 = some { data := p.2, prev := lastAddr 0 pre', next := t.1 } := by
      have := hc
      rw [hassoc] at this
      exact this.mid_cell
    have hp0 : p.1 ≠ 0 := by have := hb p (by simp); omega
    have hpt : p.1 ≠ t.1 := hpre p (by simp)
    have hhead : l.head ≠ t.1 := by
      rw [hh]
      cases pre' with
      | nil => exact hpt
      | cons y r => exact hpre y (by simp)
    have hprev : lastAddr 0 (pre' ++ [p]) = p.1 := by simp [lastAddr_append]
    rw [hprev] at hct
    have hpre1 : ∀ y ∈ pre', y.1 ≠ t.1 := fun y hy => hpre y (by simp [hy])
    have hpre2 : ∀ y ∈ pre', y.1 ≠ p.1 := by
      intro y hy e
      rw [hassoc, List.map_append, List.nodup_append] at hnd
      exact hnd.2.2 (List.mem_map_of_mem _ hy) (by simp [e])
    have hcpre : Chain m.cells 0 pre' p.1 := by
      have := hc
      rw [hassoc, Chain.append] at this
      exact this.1
    cases post with
    | nil =>
      simp only [firstAddr_nil] at hct
      have htail : l.tail = t.1 := by rw [ht]; simp [lastAddr_append]
      apply Exists.intro
      apply Exists.intro
      refine ⟨?_, ?_, ?_, ?_, ?_, ?_, ?_, ?_, ?_, ?_⟩
      · simp [removeFromListUnlink, Mem.read, Mem.write, Mem.free, ht0, hp0, hct, hcp, hhead.symm,
          htail, hpt, hpt.symm, bind, Except.bind]
        rfl
      · rfl
      · simp [hh, firstAddr_append]
      · rw [List.append_nil, Chain.append]
        refine ⟨hcpre.congr ?_, by simp [Chain_cons, hpt]⟩
        intro y hy
        simp [hpre1 y hy, hpre2 y hy]
      · rfl
      · rfl
      · rfl
      · rfl
      · rfl
      · rfl
    | cons u post' =>
      have hu0 : u.1 ≠ 0 := by have := hb u (by simp); omega
      have hut : u.1 ≠ t.1 := hpost u (by simp)
      have hup : u.1 ≠ p.1 := by
        intro e
        rw [List.map_append, List.nodup_append] at hnd
        exact hnd.2.2 (List.mem_map_of_mem _ (show p ∈ pre' ++ [p] by simp)) (by simp [e])
      have hcu : m.cells u.1 = some { data := u.2, prev := t.1, next := firstAddr 0 post' } := by
        have := hc
        rw [show (pre' ++ [p]) ++ t :: u :: post' = (pre' ++ [p, t]) ++ u :: post' by simp] at this
        have h2 := this.mid_cell
        simpa [lastAddr_append] using h2
      have hcpost : Chain m.cells u.1 post' 0 := by
        have := hc
        rw [show (pre' ++ [p]) ++ t :: u :: post' = (pre' ++ [p, t, u]) ++ post' by simp,
          Chain.append] at this
        simpa [lastAddr_append] using this.2
      have hpost1 : ∀ y ∈ post', y.1 ≠ t.1 := fun y hy => hpost y (by simp [hy])
      have hpost2 : ∀ y ∈ post', y.1 ≠ p.1 := by
        intro y hy e
        rw [List.map_append, List.nodup_append] at hnd
        exact hnd.2.2 (List.mem_map_of_mem _ (show p ∈ pre' ++ [p] by simp))
          (by simp only [List.map_cons, List.mem_cons, List.mem_map]
              exact Or.inr (Or.inr ⟨y, hy, e⟩))
      have hpost3 : ∀ y ∈ post', y.1 ≠ u.1 := by
        intro y hy e
        rw [List.map_append, List.nodup_append] at hnd
        simp only [List.map_cons, List.nodup_cons, List.mem_map, not_exists, not_and] at hnd
        exact hnd.2.1.2.1 y hy e
      have hpre3 : ∀ y ∈ pre', y.1 ≠ u.1 := by
        intro y hy e
        rw [List.map_append, List.nodup_append] at hnd
        exact hnd.2.2 (List.mem_map_of_mem _ (show y ∈ pre' ++ [p] by simp [hy])) (by simp [e])
      have htail : l.tail ≠ t.1 := by
        rw [ht]
        simp only [lastAddr_append, lastAddr_cons]
        have : ∀ (q : Nat × Option α) (zs : List (Nat × Option α)),
            q.1 ≠ t.1 → (∀ y ∈ zs, y.1 ≠ t.1) → lastAddr q.1 zs ≠ t.1 := by
          intro q zs
          induction zs generalizing q with
          | nil => intro h _; exact h
          | cons z zs ih =>
            intro _ h
            exact ih z (h z (by simp)) (fun y hy => h y (by simp [hy]))
        exact this u post' hut hpost1
      simp only [firstAddr_cons] at hct
      apply Exists.intro
      apply Exists.intro
      refine ⟨?_, ?_, ?_, ?_, ?_, ?_, ?_, ?_, ?_, ?_⟩
      · simp [removeFromListUnlink, Mem.read, Mem.write, Mem.free, ht0, hp0, hu0, hct, hcp, hcu,
          hhead.symm, htail.symm, hpt, hpt.symm, hut, hut.symm, hup, hup.symm, bind, Except.bind]
        rfl
      · rfl
      · simp [hh, firstAddr_append]
      · rw [show (pre' ++ [p]) ++ u :: post' = pre' ++ p :: u :: post' by simp, Chain.append]
        refine ⟨hcpre.congr ?_, by simp [hpt, hup.symm], by simp [hut], hcpost.congr ?_⟩
        · intro y hy
          simp [hpre1 y hy, hpre2 y hy, hpre3 y hy]
        · intro y hy
          simp [hpost1 y hy, hpost2 y hy, hpost3 y hy]
      · rfl
      · rfl
      · rfl
      · rfl
      · rfl
      · rfl
theorem removeFromListLoop_none {l : LinkedList α} {m : Mem (ListNode α)}
    {D : List (Option α)} {k : Option α} :
    ∀ (rest : List (Nat × Option α)) (prv fuel : Nat), Chain m.cells prv rest 0 →
      (∀ y ∈ rest, y.1 ≠ 0) → rest.length < fuel →
      (∀ y ∈ rest, l.compareData y.2 k ≠ 0) →
      removeFromListLoop l D k fuel m (firstAddr 0 rest) = .ok none := by
  intro rest
  induction rest with
  | nil =>
    intro prv fuel _ _ hf _
    cases fuel with
    | zero => omega
    | succ f => simp [removeFromListLoop]
  | cons y r ih =>
    intro prv fuel hc h0 hf hno
    cases fuel with
    | zero => omega
    | succ f =>
      have hy0 := h0 y (by simp)
      have hr := ih y.1 f hc.2 (fun z hz => h0 z (by simp [hz])) (by simp at hf; omega)
        (fun z hz => hno z (by simp [hz]))
      simp [removeFromListLoop, hy0, Mem.read, hc.1, hno y (by simp), hr, bind, Except.bind]

theorem removeFromListLoop_found {l : LinkedList α} {m : Mem (ListNode α)}
    {D : List (Option α)} {k : Option α} {t : Nat × Option α}
    {P : List (Nat × Option α)} (hct : l.compareData t.2 k = 0) :
    ∀ (mid : List (Nat × Option α)) (prv fuel : Nat), Chain m.cells prv (mid ++ t :: P) 0 →
      (∀ y ∈ mid ++ t :: P, y.1 ≠ 0) → mid.length < fuel →
      (∀ y ∈ mid, l.compareData y.2 k ≠ 0) →
      removeFromListLoop l D k fuel m (firstAddr 0 (mid ++ t :: P)) =
        (do let s ← removeFromListUnlink l m D t.1
            .ok (some s)) := by
  intro mid
  induction mid with
  | nil =>
    intro prv fuel hc h0 hf _
    cases fuel with
    | zero => omega
    | succ f =>
      have ht0 := h0 t (by simp)
      simp only [List.nil_append] at hc
      simp [removeFromListLoop, ht0, Mem.read, hc.1, hct, bind, Except.bind]
  | cons y r ih =>
    intro prv fuel hc h0 hf hno
    cases fuel with
    | zero => omega
    | succ f =>
      have hy0 := h0 y (by simp)
      have hr := ih y.1 f hc.2 (fun z hz => h0 z (List.mem_cons_of_mem _ hz))
        (by simp at hf; omega) (fun z hz => hno z (by simp [hz]))
      have hcy := hc.1
      simp only [List.cons_append, firstAddr_cons] at hcy ⊢
      simp [removeFromListLoop, hy0, Mem.read, hcy, hno y (by simp), hr, bind, Except.bind]

theorem removeFromList_found {E : Env α} {s : ListState α} {pre post : List (Nat × Option α)}
    {t : Nat × Option α} (h : Repr E s (pre ++ t :: post)) (x : α)
    (hpre : ∀ y ∈ pre, E.cmp y.2 (some x) ≠ 0) (ht : E.cmp t.2 (some x) = 0) :
    ∃ s' l', removeFromList s (some x) = .ok (EXIT_SUCCESS, s') ∧ s'.list = some l' ∧
      l'.head = firstAddr 0 (pre ++ post) ∧ Chain s'.mem.cells 0 (pre ++ post) 0 ∧
      s'.mem.brk = s.mem.brk ∧ s'.destroyed = t.2 :: s.destroyed ∧
      lengthField s' = lengthField s := by
  obtain ⟨⟨l, hl, hh, htl, hlen, hcmp, hpr⟩, hmok, hc, hnd, hb, hfr⟩ := h
  have hlen0 : l.length ≠ 0 := by simp [hlen]
  have hlen1 := length_le_of_bound hnd hb
  obtain ⟨s', l', hu, hl', hh', hch', hbrk', -, hd', hlen', -, -⟩ :=
    removeFromListUnlink_chain (l := l) (D := s.destroyed) hh htl hc hnd hb
  have hloop := removeFromListLoop_found (l := l) (m := s.mem) (D := s.destroyed)
    (k := some x) (t := t) (P := post) (by rw [hcmp]; exact ht) pre 0 (s.mem.brk + 1) hc
    (fun y hy => by have := hb y hy; omega)
    (by simp at hlen1; omega) (fun y hy => by rw [hcmp]; exact hpre y hy)
  refine ⟨s', l', ?_, hl', hh', hch', hbrk', hd', ?_⟩
  · rw [hu] at hloop
    simp [removeFromList, hl, hlen0, hh, hloop, bind, Except.bind]
  · simp [lengthField, hl, hl', hlen']

theorem removeFromList_none {E : Env α} {s : ListState α} {xs : List (Nat × Option α)}
    (h : Repr E s xs) (x : Option α) (hno : ∀ y ∈ xs, E.cmp y.2 x ≠ 0) :
    removeFromList s x = .ok (EXIT_FAILURE, s) := by
  obtain ⟨⟨l, hl, hh, htl, hlen, hcmp, hpr⟩, hmok, hc, hnd, hb, hfr⟩ := h
  have hlen1 := length_le_of_bound hnd hb
  have hloop := removeFromListLoop_none (l := l) (m := s.mem) (D := s.destroyed)
    (k := x) xs 0 (s.mem.brk + 1) hc (fun y hy => by have := hb y hy; omega)
    (by omega) (fun y hy => by rw [hcmp]; exact hno y hy)
  simp only [removeFromList, hl]
  split
  · rfl
  · simp [hh, hloop, bind, Except.bind]

theorem IsTotalPreorder.le_of_ge {cmp : Option α → Option α → Int} (h : IsTotalPreorder cmp)
    {a b : Option α} (hab : 0 ≤ cmp a b) : cmp b a ≤ 0 := by
  by_contra hn
  have h1 : cmp a b < 0 := (h.swap a b).2 (by omega)
  omega

theorem IsTotalPreorder.eq_zero_symm {cmp : Option α → Option α → Int}
    (h : IsTotalPreorder cmp) {a b : Option α} (hab : cmp a b = 0) : cmp b a = 0 := by
  have h1 : ¬ cmp b a < 0 := fun hlt => by have := (h.swap b a).1 hlt; omega
  have h2 : ¬ 0 < cmp b a := fun hgt => by have := (h.swap a b).2 hgt; omega
  omega

theorem sortedBy_iff_chain' (cmp : Option α → Option α → Int) (ds : List (Option α)) :
    SortedBy cmp ds ↔ ds.Chain' (fun a b => cmp a b ≤ 0) := by
  induction ds with
  | nil => simp [SortedBy]
  | cons a r ih =>
    cases r with
    | nil => simp [SortedBy]
    | cons b r => rw [List.chain'_cons, ← ih, SortedBy]

theorem insertSortedModel_sorted {cmp : Option α → Option α → Int} (hcmp : IsTotalPreorder cmp)
    {x : Nat × Option α} {xs ys : List (Nat × Option α)}
    (hs : SortedBy cmp (xs.map Prod.snd)) (hm : insertSortedModel cmp x xs = some ys) :
    SortedBy cmp (ys.map Prod.snd) := by
  rw [sortedBy_iff_chain'] at hs ⊢
  rw [List.chain'_map] at hs ⊢
  cases xs with
  | nil =>
    simp only [insertSortedModel, Option.some.injEq] at hm
    subst hm
    exact List.chain'_singleton _
  | cons f r =>
    simp only [insertSortedModel] at hm
    split at hm
    · rename_i c1
      simp only [Option.some.injEq] at hm
      subst hm
      exact List.chain'_cons.2 ⟨by omega, hs⟩
    · split at hm
      · rename_i c1 c2
        simp only [Option.some.injEq] at hm
        subst hm
        refine List.Chain'.append hs (List.chain'_singleton _) ?_
        intro a ha y hy
        rw [getLast?_cons_eq_lastNode] at ha
        simp only [Option.mem_def, Option.some.injEq, List.head?_cons] at ha hy
        subst ha hy
        exact hcmp.le_of_ge c2
      · obtain ⟨pre, t, u, post, hxs, hys, h1, h2⟩ := seamInsert_split hm
        rw [hxs] at hs
        rw [hys]
        rw [List.chain'_append_cons_cons] at hs
        rw [List.chain'_split, List.chain'_cons, List.chain'_cons]
        exact ⟨hs.1, hcmp.le_of_ge (by omega), h2, hs.2.2⟩

theorem runCalls_sorted {E : Env α} (hcmp : IsTotalPreorder E.cmp) (calls : List (ListCall α)) :
    ∀ {s : ListState α} {xs : List (Nat × Option α)}, Repr E s xs →
      SortedBy E.cmp (xs.map Prod.snd) → calls.all ListCall.isSortedInsert = true →
      ∃ rs s' xs', runCalls calls s = .ok (rs, s') ∧ Repr E s' xs' ∧
        SortedBy E.cmp (xs'.map Prod.snd) := by
  induction calls with
  | nil =>
    intro s xs h hs _
    exact ⟨[], s, xs, rfl, h, hs⟩
  | cons c cs ih =>
    intro s xs h hs hall
    simp only [List.all_cons, Bool.and_eq_true] at hall
    cases c with
    | insertSorted d =>
      obtain ⟨r, s1, xs1, h1, hr1, -, hcase⟩ := insertSortedList_repr h d
      have hs1 : SortedBy E.cmp (xs1.map Prod.snd) := by
        rcases hcase with ⟨-, -, hm⟩ | ⟨-, rfl, -⟩
        · exact insertSortedModel_sorted hcmp hs hm
        · exact hs
      obtain ⟨rs, s2, xs2, h2, hr2, hs2⟩ := ih hr1 hs1 hall.2
      exact ⟨r :: rs, s2, xs2, by simp [runCalls, ListCall.run, h1, h2, bind, Except.bind],
        hr2, hs2⟩
    | insertFront d => simp [ListCall.isSortedInsert] at hall
    | insertBack d => simp [ListCall.isSortedInsert] at hall
    | removeFront => simp [ListCall.isSortedInsert] at hall
    | removeBack => simp [ListCall.isSortedInsert] at hall
    | removeMatching d => simp [ListCall.isSortedInsert] at hall

theorem intCompare_totalPreorder : IsTotalPreorder intCompare := by
  constructor
  · intro a b
    cases a <;> cases b <;> simp only [intCompare] <;> (try split_ifs) <;> omega
  · intro a b c
    cases a <;> cases b <;> cases c <;> simp only [intCompare] <;> (try split_ifs) <;> omega
theorem IsTotalPreorder.ge_of_le {cmp : Option α → Option α → Int} (h : IsTotalPreorder cmp)
    {a b : Option α} (hab : cmp a b ≤ 0) : 0 ≤ cmp b a := by
  by_contra hn
  have h1 : 0 < cmp a b := (h.swap b a).1 (by omega)
  omega

theorem lastNode_mem {β : Type} (f : β) (r : List β) : lastNode f r ∈ f :: r := by
  induction r generalizing f with
  | nil => simp [lastNode]
  | cons y r ih =>
    have := ih y
    simp only [lastNode]
    exact List.mem_cons_of_mem _ this

theorem SortedBy.pairwise {cmp : Option α → Option α → Int} (hcmp : IsTotalPreorder cmp)
    {xs : List (Nat × Option α)} (hs : SortedBy cmp (xs.map Prod.snd)) :
    xs.Pairwise (fun a b => cmp a.2 b.2 ≤ 0) := by
  rw [sortedBy_iff_chain', List.chain'_map] at hs
  haveI : IsTrans (Nat × Option α) (fun a b => cmp a.2 b.2 ≤ 0) :=
    ⟨fun a b c hab hbc => hcmp.trans a.2 b.2 c.2 hab hbc⟩
  exact List.chain'_iff_pairwise.1 hs

theorem insertSortedModel_position {cmp : Option α → Option α → Int}
    (hcmp : IsTotalPreorder cmp) {x : Nat × Option α} {xs ys : List (Nat × Option α)}
    (hs : SortedBy cmp (xs.map Prod.snd)) (hm : insertSortedModel cmp x xs = some ys) :
    ∃ pre post, xs = pre ++ post ∧ ys = pre ++ x :: post ∧
      (∀ e ∈ pre, 0 ≤ cmp x.2 e.2) ∧ (∀ e ∈ post, cmp x.2 e.2 ≤ 0) ∧
      ((∀ b ∈ xs.getLast?, 0 ≤ cmp x.2 b.2) → post = []) ∧
      ((∃ b ∈ xs.getLast?, cmp x.2 b.2 < 0) → ∀ e ∈ pre, 0 < cmp x.2 e.2) := by
  have hpw := hs.pairwise hcmp
  cases xs with
  | nil =>
    simp only [insertSortedModel, Option.some.injEq] at hm
    subst hm
    exact ⟨[], [], rfl, rfl, by simp, by simp, fun _ => rfl, by simp⟩
  | cons f r =>
    have hlastmem : lastNode f r ∈ f :: r := lastNode_mem f r
    simp only [insertSortedModel] at hm
    split at hm
    · rename_i c1
      simp only [Option.some.injEq] at hm
      subst hm
      have hall : ∀ e ∈ f :: r, cmp x.2 e.2 ≤ 0 := by
        intro e he
        rcases List.mem_cons.1 he with rfl | he
        · omega
        · exact hcmp.trans _ _ _ (by omega) (List.rel_of_pairwise_cons hpw he)
      refine ⟨[], f :: r, rfl, rfl, by simp, hall, ?_, by simp⟩
      intro hge
      exfalso
      have h1 := hge (lastNode f r) (getLast?_cons_eq_lastNode f r)
      have h2 := hall _ hlastmem
      have h3 : cmp (lastNode f r).2 x.2 = 0 := hcmp.eq_zero_symm (by omega)
      have h4 : cmp f.2 (lastNode f r).2 ≤ 0 := by
        rcases List.mem_cons.1 hlastmem with e | he
        · rw [e]
          have := hcmp.le_of_ge (a := f.2) (b := f.2)
          have := hcmp.ge_of_le (a := f.2) (b := f.2)
          omega
        · exact List.rel_of_pairwise_cons hpw he
      have h5 := hcmp.trans _ _ _ h4 (show cmp (lastNode f r).2 x.2 ≤ 0 by omega)
      have h6 := (hcmp.swap x.2 f.2).1 c1
      omega
    · rename_i c1
      split at hm
      · rename_i c2
        simp only [Option.some.injEq] at hm
        subst hm
        have hlx : cmp (lastNode f r).2 x.2 ≤ 0 := hcmp.le_of_ge c2
        refine ⟨f :: r, [], by simp, rfl, ?_, by simp, fun _ => rfl, ?_⟩
        · intro e he
          apply hcmp.ge_of_le
          obtain ⟨L, b, hLb⟩ : ∃ L b, f :: r = L ++ [b] := by
            rcases eq_nil_or_snoc (f :: r) with h | h
            · exact absurd h (by simp)
            · exact h
          have hb : lastNode f r = b := lastNode_of_eq_snoc hLb
          rw [hLb] at he hpw
          rw [hb] at hlx
          rcases List.mem_append.1 he with he | he
          · exact hcmp.trans _ _ _ ((List.pairwise_append.1 hpw).2.2 e he b (by simp)) hlx
          · simp only [List.mem_singleton] at he
            rw [he]
            exact hlx
        · rintro ⟨b, hb, hlt⟩
          rw [getLast?_cons_eq_lastNode] at hb
          simp only [Option.mem_def, Option.some.injEq] at hb
          subst hb
          omega
      · rename_i c2
        obtain ⟨pre, t, u, post, hxs, hys, h1, h2⟩ := seamInsert_split hm
        rw [hxs] at hpw
        have hpw' : (pre ++ [t] ++ u :: post).Pairwise (fun a b => cmp a.2 b.2 ≤ 0) := by
          simpa using hpw
        obtain ⟨hp1, hp2, hp3⟩ := List.pairwise_append.1 hpw'
        have hpre : ∀ e ∈ pre ++ [t], 0 < cmp x.2 e.2 := by
          intro e he
          rcases List.mem_append.1 he with he | he
          · by_contra hn
            have het : cmp e.2 t.2 ≤ 0 := (List.pairwise_append.1 hp1).2.2 e he t (by simp)
            have := hcmp.trans _ _ _ (show cmp x.2 e.2 ≤ 0 by omega) het
            omega
          · simp only [List.mem_singleton] at he
            rw [he]
            omega
        have hpost : ∀ e ∈ u :: post, cmp x.2 e.2 ≤ 0 := by
          intro e he
          rcases List.mem_cons.1 he with rfl | he
          · exact h2
          · exact hcmp.trans _ _ _ h2 (List.rel_of_pairwise_cons hp2 he)
        refine ⟨pre ++ [t], u :: post, by simp [hxs], by simp [hys], ?_, hpost, ?_, fun _ => hpre⟩
        · intro e he
          have := hpre e he
          omega
        · intro hge
          exfalso
          have := hge (lastNode f r) (getLast?_cons_eq_lastNode f r)
          omega

theorem keyCompare_totalPreorder : IsTotalPreorder keyCompare :=
  ⟨fun _ _ => intCompare_totalPreorder.swap _ _,
   fun _ _ _ => intCompare_totalPreorder.trans _ _ _⟩

theorem iterateMany_chain {s : ListState α} (b : Bool) :
    ∀ (r : List (Nat × Option α)) (x : Nat × Option α) (prv : Nat),
      Chain s.mem.cells prv (x :: r) 0 → (∀ y ∈ x :: r, y.1 ≠ 0) →
      iterateMany s r.length (some { list := b, currentNode := x.1 }) =
        .ok ((x :: r).dropLast.map Prod.snd,
          some { list := b, currentNode := lastAddr x.1 r }) := by
  intro r
  induction r with
  | nil =>
    intro x prv _ _
    rfl
  | cons y r ih =>
    intro x prv hc h0
    have hx0 := h0 x (by simp)
    have hy0 := h0 y (by simp)
    have hcx := hc.1
    simp only [firstAddr_cons] at hcx
    have hr := ih y x.1 hc.2 (fun z hz => h0 z (List.mem_cons_of_mem _ hz))
    simp only [List.length_cons, iterateMany, listIterateNext, hx0, if_false, Mem.read, hcx,
      hy0, bind, Except.bind, hr, lastAddr_cons]
    simp [List.dropLast]

theorem iterateMany_stuck {s : ListState α} (it : ListIterator)
    (h : it.currentNode = 0 ∨
      ∃ c, s.mem.cells it.currentNode = some c ∧ c.next = 0) :
    ∀ k, iterateMany s k (some it) = (.ok (List.replicate k none, some it) :
      Except Fault (List (Option α) × Option ListIterator)) := by
  have hstep : listIterateNext s (some it) = .ok (none, some it) := by
    rcases h with h | ⟨c, hc, hn⟩
    · simp [listIterateNext, h]
    · by_cases h0 : it.currentNode = 0
      · simp [listIterateNext, h0]
      · simp [listIterateNext, h0, Mem.read, hc, hn, bind, Except.bind]
  intro k
  induction k with
  | zero => rfl
  | succ k ih => simp [iterateMany, hstep, ih, bind, Except.bind, List.replicate_succ]
theorem map_snd_split {xs : List (Nat × Option α)} {pre post : List (Option α)} {e : Option α}
    (h : xs.map Prod.snd = pre ++ e :: post) :
    ∃ xpre t xpost, xs = xpre ++ t :: xpost ∧ xpre.map Prod.snd = pre ∧ t.2 = e ∧
      xpost.map Prod.snd = post := by
  obtain ⟨l1, l2, rfl, h1, h2⟩ := List.map_eq_append_iff.1 h
  obtain ⟨t, l3, rfl, h3, h4⟩ := List.map_eq_cons_iff.1 h2
  exact ⟨l1, t, l3, rfl, h1, h3, h4⟩

theorem getListIndexLoop_found (cmp : Option α → Option α → Int) {m : Mem (ListNode α)}
    {k : Option α} {t : Nat × Option α} {P : List (Nat × Option α)}
    (hct : cmp t.2 k = 0) :
    ∀ (mid : List (Nat × Option α)) (prv fuel c : Nat), Chain m.cells prv (mid ++ t :: P) 0 →
      (∀ y ∈ mid ++ t :: P, y.1 ≠ 0) → mid.length < fuel →
      (∀ y ∈ mid, cmp y.2 k ≠ 0) → c + mid.length < 2 ^ 64 →
      getListIndexLoop cmp k fuel m (firstAddr 0 (mid ++ t :: P)) c = .ok (c + mid.length) := by
  intro mid
  induction mid with
  | nil =>
    intro prv fuel c hc h0 hf _ _
    cases fuel with
    | zero => omega
    | succ f =>
      have ht0 := h0 t (by simp)
      simp only [List.nil_append] at hc
      simp [getListIndexLoop, ht0, Mem.read, hc.1, hct, bind, Except.bind]
  | cons y r ih =>
    intro prv fuel c hc h0 hf hno hsz
    cases fuel with
    | zero => omega
    | succ f =>
      have hy0 := h0 y (by simp)
      simp only [List.length_cons] at hf hsz
      have hr := ih y.1 f (c + 1) hc.2 (fun z hz => h0 z (List.mem_cons_of_mem _ hz))
        (by omega) (fun z hz => hno z (by simp [hz])) (by omega)
      have hcy := hc.1
      have hmod : (c + 1) % 2 ^ 64 = c + 1 := Nat.mod_eq_of_lt (by omega)
      simp only [List.cons_append, firstAddr_cons] at hcy ⊢
      have hidx : c + (r.length + 1) = c + 1 + r.length := by omega
      simp only [getListIndexLoop, hy0, if_false, Mem.read, hcy, bind, Except.bind,
        hno y (by simp), hmod, List.length_cons, hidx]
      exact hr

theorem getListIndexLoop_none (cmp : Option α → Option α → Int) {m : Mem (ListNode α)}
    {k : Option α} :
    ∀ (rest : List (Nat × Option α)) (prv fuel c : Nat), Chain m.cells prv rest 0 →
      (∀ y ∈ rest, y.1 ≠ 0) → rest.length < fuel → (∀ y ∈ rest, cmp y.2 k ≠ 0) →
      getListIndexLoop cmp k fuel m (firstAddr 0 rest) c = .ok SIZE_MAX := by
  intro rest
  induction rest with
  | nil =>
    intro prv fuel c _ _ hf _
    cases fuel with
    | zero => omega
    | succ f => simp [getListIndexLoop]
  | cons y r ih =>
    intro prv fuel c hc h0 hf hno
    cases fuel with
    | zero => omega
    | succ f =>
      have hy0 := h0 y (by simp)
      have hr := ih y.1 f ((c + 1) % 2 ^ 64) hc.2 (fun z hz => h0 z (by simp [hz]))
        (by simp at hf; omega) (fun z hz => hno z (by simp [hz]))
      simp only [firstAddr_cons, getListIndexLoop, hy0, if_false, Mem.read, hc.1, bind,
        Except.bind, hno y (by simp), hr]

theorem getListDataLoop_at {m : Mem (ListNode α)} {t : Nat × Option α}
    {P : List (Nat × Option α)} :
    ∀ (mid : List (Nat × Option α)) (prv fuel c : Nat), Chain m.cells prv (mid ++ t :: P) 0 →
      (∀ y ∈ mid ++ t :: P, y.1 ≠ 0) → mid.length < fuel → c + mid.length < 2 ^ 64 →
      getListDataLoop (c + mid.length) fuel m (firstAddr 0 (mid ++ t :: P)) c = .ok t.2 := by
  intro mid
  induction mid with
  | nil =>
    intro prv fuel c hc h0 hf _
    cases fuel with
    | zero => omega
    | succ f =>
      have ht0 := h0 t (by simp)
      simp only [List.nil_append] at hc
      simp [getListDataLoop, ht0, Mem.read, hc.1, bind, Except.bind]
  | cons y r ih =>
    intro prv fuel c hc h0 hf hsz
    cases fuel with
    | zero => omega
    | succ f =>
      have hy0 := h0 y (by simp)
      simp only [List.length_cons] at hf hsz
      have hr := ih y.1 f (c + 1) hc.2 (fun z hz => h0 z (List.mem_cons_of_mem _ hz))
        (by omega) (by omega)
      have hcy := hc.1
      have hmod : (c + 1) % 2 ^ 64 = c + 1 := Nat.mod_eq_of_lt (by omega)
      have hne : ¬ c = c + (r.length + 1) := by omega
      have hidx : c + (r.length + 1) = c + 1 + r.length := by omega
      simp only [List.cons_append, firstAddr_cons] at hcy ⊢
      simp only [getListDataLoop, hy0, if_false, Mem.read, hcy, bind, Except.bind,
        List.length_cons, hne, hmod]
      rw [hidx]
      exact hr

theorem getListDataLoop_out {m : Mem (ListNode α)} (index : Nat) :
    ∀ (rest : List (Nat × Option α)) (prv fuel c : Nat), Chain m.cells prv rest 0 →
      (∀ y ∈ rest, y.1 ≠ 0) → rest.length < fuel → c + rest.length ≤ index →
      c + rest.length < 2 ^ 64 →
      getListDataLoop index fuel m (firstAddr 0 rest) c = (.ok none : Except Fault (Option α)) := by
  intro rest
  induction rest with
  | nil =>
    intro prv fuel c _ _ hf _ _
    cases fuel with
    | zero => omega
    | succ f => simp [getListDataLoop]
  | cons y r ih =>
    intro prv fuel c hc h0 hf hidx hsz
    cases fuel with
    | zero => omega
    | succ f =>
      have hy0 := h0 y (by simp)
      simp only [List.length_cons] at hf hidx hsz
      have hmod : (c + 1) % 2 ^ 64 = c + 1 := Nat.mod_eq_of_lt (by omega)
      have hr := ih y.1 f (c + 1) hc.2 (fun z hz => h0 z (by simp [hz]))
        (by omega) (by omega) (by omega)
      have hne : ¬ c = index := by omega
      simp only [firstAddr_cons, getListDataLoop, hy0, if_false, Mem.read, hc.1, bind,
        Except.bind, hne, hmod, hr]
theorem first_match_split {γ : Type} {p : γ → Prop} {xs : List γ} (h : ∃ y ∈ xs, p y) :
    ∃ pre t post, xs = pre ++ t :: post ∧ (∀ y ∈ pre, ¬ p y) ∧ p t := by
  induction xs with
  | nil => simp at h
  | cons a r ih =>
    by_cases ha : p a
    · exact ⟨[], a, r, rfl, by simp, ha⟩
    · obtain ⟨y, hy, hpy⟩ := h
      rcases List.mem_cons.1 hy with rfl | hy
      · exact absurd hpy ha
      · obtain ⟨pre, t, post, h1, h2, h3⟩ := ih ⟨y, hy, hpy⟩
        refine ⟨a :: pre, t, post, by simp [h1], ?_, h3⟩
        intro z hz
        rcases List.mem_cons.1 hz with rfl | hz
        · exact ha
        · exact h2 z hz

theorem getListIndex_found {E : Env α} {s : ListState α} {pre post : List (Nat × Option α)}
    {t : Nat × Option α} (h : Repr E s (pre ++ t :: post)) (x : α)
    (hsmall : s.mem.brk < SIZE_MAX)
    (hpre : ∀ y ∈ pre, E.cmp y.2 (some x) ≠ 0) (ht : E.cmp t.2 (some x) = 0) :
    getListIndex s (some x) = .ok pre.length ∧ getListData s pre.length = .ok t.2 := by
  obtain ⟨⟨l, hl, hh, htl, hlen, hcmp, hpr⟩, hmok, hc, hnd, hb, hfr⟩ := h
  have hlen0 : l.length ≠ 0 := by simp [hlen]
  have hlen1 := length_le_of_bound hnd hb
  simp only [List.length_append, List.length_cons] at hlen1
  have h0 : ∀ y ∈ pre ++ t :: post, y.1 ≠ 0 := fun y hy => by have := hb y hy; omega
  simp only [SIZE_MAX] at hsmall
  constructor
  · have := getListIndexLoop_found E.cmp (m := s.mem) (k := some x) (t := t)
      (P := post) ht pre 0 (s.mem.brk + 1) 0 hc h0 (by omega) hpre (by omega)
    simp only [Nat.zero_add] at this
    simp [getListIndex, hl, hlen0, hh, hcmp, this]
  · have := getListDataLoop_at (m := s.mem) (t := t) (P := post) pre 0 (s.mem.brk + 1) 0 hc h0
      (by omega) (by omega)
    simp only [Nat.zero_add] at this
    simp [getListData, hl, hlen0, hh, this]

theorem getListIndex_none {E : Env α} {s : ListState α} {xs : List (Nat × Option α)}
    (h : Repr E s xs) (x : Option α) (hno : ∀ y ∈ xs, E.cmp y.2 x ≠ 0) :
    getListIndex s x = .ok SIZE_MAX := by
  obtain ⟨⟨l, hl, hh, htl, hlen, hcmp, hpr⟩, hmok, hc, hnd, hb, hfr⟩ := h
  have hlen1 := length_le_of_bound hnd hb
  have := getListIndexLoop_none E.cmp (m := s.mem) (k := x) xs 0 (s.mem.brk + 1) 0 hc
    (fun y hy => by have := hb y hy; omega) (by omega) hno
  simp only [getListIndex, hl]
  split
  · rfl
  · simp [hh, hcmp, this]

theorem getListData_out {E : Env α} {s : ListState α} {xs : List (Nat × Option α)}
    (h : Repr E s xs) (hsmall : s.mem.brk < SIZE_MAX) (i : Nat) (hi : xs.length ≤ i) :
    getListData s i = .ok none := by
  obtain ⟨⟨l, hl, hh, htl, hlen, hcmp, hpr⟩, hmok, hc, hnd, hb, hfr⟩ := h
  have hlen1 := length_le_of_bound hnd hb
  simp only [SIZE_MAX] at hsmall
  have := getListDataLoop_out (m := s.mem) i xs 0 (s.mem.brk + 1) 0 hc
    (fun y hy => by have := hb y hy; omega) (by omega) (by omega) (by omega)
  simp only [getListData, hl]
  split
  · rfl
  · simp [hh, this]

theorem contains_index_loop (cmp : Option α → Option α → Int) (k : Option α)
    (m : Mem (ListNode α)) :
    ∀ (fuel temp c : Nat), c + fuel ≤ SIZE_MAX →
      listContainsLoop cmp k fuel m temp =
        (getListIndexLoop cmp k fuel m temp c).map (fun i => decide (i ≠ SIZE_MAX)) := by
  intro fuel
  induction fuel with
  | zero => intro temp c _; rfl
  | succ f ih =>
    intro temp c hc
    simp only [SIZE_MAX] at hc
    have hmod : (c + 1) % 2 ^ 64 = c + 1 := Nat.mod_eq_of_lt (by omega)
    have hih := ih
    simp only [listContainsLoop, getListIndexLoop, hmod]
    by_cases ht : temp = 0
    · simp [ht, Except.map]
    · simp only [ht, if_false]
      cases hr : m.read temp with
      | error e => simp [bind, Except.bind, Except.map]
      | ok t =>
        simp only [bind, Except.bind]
        by_cases hm : cmp t.data k = 0
        · have : c ≠ SIZE_MAX := by simp only [SIZE_MAX]; omega
          simp [hm, Except.map, this]
        · simp only [hm, if_false]
          exact hih t.next (c + 1) (by simp only [SIZE_MAX]; omega)
theorem bind_eq_ok {ε γ δ : Type} (x : Except ε γ) (f : γ → Except ε δ) (v : δ) :
    (x >>= f) = .ok v ↔ ∃ a, x = .ok a ∧ f a = .ok v := by
  cases x with
  | error e => simp [bind, Except.bind]
  | ok a => simp [bind, Except.bind]

theorem exit_codes_ne : EXIT_SUCCESS ≠ EXIT_FAILURE := by decide

theorem insertListFront_failure {s s' : ListState α} {d : Option α}
    (h : insertListFront s d = .ok (EXIT_FAILURE, s')) :
    s'.list = s.list ∧ s'.mem.cells = s.mem.cells ∧ s'.destroyed = s.destroyed := by
  unfold insertListFront at h
  cases hl : s.list with
  | none =>
    simp only [hl, Except.ok.injEq, Prod.mk.injEq, true_and] at h
    subst h
    simp [hl]
  | some l =>
    simp only [hl, createListNode, Mem.malloc] at h
    by_cases hok : s.mem.mallocOk s.mem.brk = true
    · simp only [hok, if_true, Nat.add_one_ne_zero, if_false] at h
      split at h
      · simp [exit_codes_ne] at h
      · simp only [bind_eq_ok] at h
        obtain ⟨_, -, _, -, _, -, _, -, h⟩ := h
        simp [exit_codes_ne] at h
    · simp only [hok, if_true, Bool.false_eq_true, if_false, Except.ok.injEq, Prod.mk.injEq,
        true_and] at h
      subst h
      simp [hl]

theorem insertListBack_failure {s s' : ListState α} {d : Option α}
    (h : insertListBack s d = .ok (EXIT_FAILURE, s')) :
    s'.list = s.list ∧ s'.mem.cells = s.mem.cells ∧ s'.destroyed = s.destroyed := by
  unfold insertListBack at h
  cases hl : s.list with
  | none =>
    simp only [hl, Except.ok.injEq, Prod.mk.injEq, true_and] at h
    subst h
    simp [hl]
  | some l =>
    simp only [hl, createListNode, Mem.malloc] at h
    by_cases hok : s.mem.mallocOk s.mem.brk = true
    · simp only [hok, if_true, Nat.add_one_ne_zero, if_false] at h
      split at h
      · simp [exit_codes_ne] at h
      · simp only [bind_eq_ok] at h
        obtain ⟨_, -, _, -, _, -, _, -, h⟩ := h
        simp [exit_codes_ne] at h
    · simp only [hok, if_true, Bool.false_eq_true, if_false, Except.ok.injEq, Prod.mk.injEq,
        true_and] at h
      subst h
      simp [hl]
theorem removeListFront_failure {s s' : ListState α}
    (h : removeListFront s = .ok (EXIT_FAILURE, s')) : s' = s := by
  unfold removeListFront at h
  cases hl : s.list with
  | none =>
    simp only [hl, Except.ok.injEq, Prod.mk.injEq, true_and] at h
    exact h.symm
  | some l =>
    simp only [hl] at h
    split at h
    · simp only [Except.ok.injEq, Prod.mk.injEq, true_and] at h
      exact h.symm
    · simp only [bind_eq_ok] at h
      obtain ⟨_, -, _, -, _, -, _, -, h⟩ := h
      simp [exit_codes_ne] at h

theorem removeListBack_failure {s s' : ListState α}
    (h : removeListBack s = .ok (EXIT_FAILURE, s')) : s' = s := by
  unfold removeListBack at h
  cases hl : s.list with
  | none =>
    simp only [hl, Except.ok.injEq, Prod.mk.injEq, true_and] at h
    exact h.symm
  | some l =>
    simp only [hl] at h
    split at h
    · simp only [Except.ok.injEq, Prod.mk.injEq, true_and] at h
      exact h.symm
    · simp only [bind_eq_ok] at h
      obtain ⟨_, -, _, -, _, -, _, -, h⟩ := h
      simp [exit_codes_ne] at h

theorem removeFromList_failure {s s' : ListState α} {d : Option α}
    (h : removeFromList s d = .ok (EXIT_FAILURE, s')) : s' = s := by
  unfold removeFromList at h
  cases hl : s.list with
  | none =>
    simp only [hl, Except.ok.injEq, Prod.mk.injEq, true_and] at h
    exact h.symm
  | some l =>
    simp only [hl] at h
    split at h
    · simp only [Except.ok.injEq, Prod.mk.injEq, true_and] at h
      exact h.symm
    · simp only [bind_eq_ok] at h
      obtain ⟨r, -, h⟩ := h
      cases r with
      | none =>
        simp only [Except.ok.injEq, Prod.mk.injEq, true_and] at h
        exact h.symm
      | some s1 => simp [exit_codes_ne] at h

theorem removeData_failure {t t' : TableState β} {key : Int}
    (h : removeData t key = .ok (EXIT_FAILURE, t')) : t' = t := by
  unfold removeData at h
  cases hl : t.hTable with
  | none =>
    simp only [hl, Except.ok.injEq, Prod.mk.injEq, true_and] at h
    exact h.symm
  | some l =>
    simp only [hl, bind_eq_ok] at h
    obtain ⟨index, -, h⟩ := h
    split at h
    · simp only [bind_eq_ok] at h
      obtain ⟨r, -, h⟩ := h
      cases r with
      | none =>
        simp only [Except.ok.injEq, Prod.mk.injEq, true_and] at h
        exact h.symm
      | some v => simp [exit_codes_ne] at h
    · simp only [Except.ok.injEq, Prod.mk.injEq, true_and] at h
      exact h.symm

theorem insertSortedList_failure {s s' : ListState α} {d : Option α}
    (hfresh : ∀ p, s.mem.brk < p → s.mem.cells p = none)
    (h : insertSortedList s d = .ok (EXIT_FAILURE, s')) :
    s'.list = s.list ∧ s'.mem.cells = s.mem.cells ∧ s'.destroyed = s.destroyed := by
  unfold insertSortedList at h
  cases hl : s.list with
  | none =>
    simp only [hl, Except.ok.injEq, Prod.mk.injEq, true_and] at h
    subst h
    simp [hl]
  | some l =>
    simp only [hl] at h
    split at h
    · exact hl ▸ insertListFront_failure h
    · simp only [bind_eq_ok] at h
      obtain ⟨f, -, h⟩ := h
      split at h
      · exact hl ▸ insertListFront_failure h
      · simp only [bind_eq_ok] at h
        obtain ⟨b, -, h⟩ := h
        split at h
        · exact hl ▸ insertListBack_failure h
        · simp only [createListNode, Mem.malloc] at h
          by_cases hok : s.mem.mallocOk s.mem.brk = true
          · simp only [hok, if_true, Nat.add_one_ne_zero, if_false, bind_eq_ok] at h
            obtain ⟨r, -, h⟩ := h
            cases r with
            | some m => simp [exit_codes_ne] at h
            | none =>
              simp only [bind_eq_ok, Mem.free, Nat.add_one_ne_zero, if_false, if_true] at h
              obtain ⟨m', hm', h⟩ := h
              simp only [Except.ok.injEq, Prod.mk.injEq, true_and] at hm' h
              subst h
              subst hm'
              refine ⟨by simp [hl], ?_, rfl⟩
              funext q
              by_cases hq : q = s.mem.brk + 1
              · subst hq
                simp [hfresh (s.mem.brk + 1) (by omega)]
              · simp [hq]
          · simp only [hok, if_true, Bool.false_eq_true, if_false, Except.ok.injEq,
              Prod.mk.injEq, true_and] at h
            subst h
            simp [hl]

theorem built_fresh (ok : Nat → Bool) (pr : Option α → String)
    (cmp : Option α → Option α → Int) (calls : List (ListCall α)) (rs : List Int)
    (s : ListState α) (hins : calls.all ListCall.isInsert = true)
    (hrun : runCalls calls (createList ok pr cmp) = .ok (rs, s)) :
    ∀ p, s.mem.brk < p → s.mem.cells p = none := by
  obtain ⟨xs, hr⟩ := built_repr hins hrun
  exact hr.fresh

theorem walkNodes_chain {m : Mem (ListNode α)} :
    ∀ (xs : List (Nat × Option α)) (prv fuel : Nat), Chain m.cells prv xs 0 →
      (∀ y ∈ xs, y.1 ≠ 0) → xs.length < fuel →
      ∃ ns, walkNodes fuel m (firstAddr 0 xs) = .ok ns ∧ ns.map (·.data) = xs.map Prod.snd ∧
        ∀ n ∈ ns, n.next ≠ 0 ∨ ∃ b, xs.getLast? = some b ∧ n.data = b.2 := by
  intro xs
  induction xs with
  | nil =>
    intro prv fuel _ _ hf
    cases fuel with
    | zero => omega
    | succ f => exact ⟨[], by simp [walkNodes], rfl, by simp⟩
  | cons x r ih =>
    intro prv fuel hc h0 hf
    cases fuel with
    | zero => omega
    | succ f =>
      have hx0 := h0 x (by simp)
      obtain ⟨ns, hns, hmap, hprop⟩ := ih x.1 f hc.2 (fun y hy => h0 y (by simp [hy]))
        (by simp at hf; omega)
      refine ⟨{ data := x.2, prev := prv, next := firstAddr 0 r } :: ns, ?_, ?_, ?_⟩
      · simp [walkNodes, hx0, Mem.read, hc.1, hns, bind, Except.bind]
      · simp [hmap]
      · intro n hn
        rcases List.mem_cons.1 hn with rfl | hn
        · cases r with
          | nil => exact Or.inr ⟨x, rfl, rfl⟩
          | cons y r' => exact Or.inl (h0 y (by simp))
        · rcases hprop n hn with h | ⟨b, hb, hd⟩
          · exact Or.inl h
          · refine Or.inr ⟨b, ?_, hd⟩
            cases r with
            | nil => simp at hb
            | cons y r' => simpa [List.getLast?_cons_cons] using hb

/-! ## The claims -/

/-- C1: on a freshly created list, with every node allocation succeeding, any
sequence of insertFront and insertBack calls reports success at every call,
leaves `length` equal to the number of calls, and leaves the head-to-tail
traversal equal to the sequence obtained by prepending each insertFront payload
and appending each insertBack payload in call order. -/
theorem insertFrontBack_sequence (ok : Nat → Bool) (pr : Option α → String)
    (cmp : Option α → Option α → Int) (calls : List (ListCall α))
    (hok : ∀ k, ok k = true) (hend : calls.all ListCall.isEndInsert = true) :
    ∃ s, runCalls calls (createList ok pr cmp) =
          .ok (List.replicate calls.length EXIT_SUCCESS, s) ∧
      lengthField s = some calls.length ∧
      traversal s = .ok (calls.foldl endInsertSpec []) := by
  obtain ⟨s, xs, hrun, hr, hm⟩ :=
    runCalls_endInsert (E := ⟨ok, pr, cmp⟩) hok calls (createList_repr ⟨ok, pr, cmp⟩) hend
  refine ⟨s, hrun, ?_, ?_⟩
  · rw [hr.lengthField]
    have := foldl_endInsertSpec_length calls [] hend
    simp only [List.map_nil] at hm
    rw [← List.length_map xs Prod.snd, hm, this]
    simp
  · rw [hr.traversal, hm]
    rfl

/-- Witness for C1: three end insertions of natural-number payloads. -/
theorem insertFrontBack_sequence_witness :
    (∀ k, (fun _ : Nat => true) k = true) ∧
    ([ListCall.insertFront (some 1), ListCall.insertBack (some 2),
        ListCall.insertFront (some 3)].all ListCall.isEndInsert = true) ∧
    ∃ s, runCalls [ListCall.insertFront (some 1), ListCall.insertBack (some 2),
            ListCall.insertFront (some 3)]
          (createList (fun _ => true) (fun _ : Option Nat => "") (fun _ _ => 0)) =
          .ok (List.replicate 3 EXIT_SUCCESS, s) ∧
      lengthField s = some 3 ∧
      traversal s = .ok [some 3, some 1, some 2] :=
  ⟨fun _ => rfl, rfl,
    insertFrontBack_sequence (fun _ => true) (fun _ : Option Nat => "") (fun _ _ => 0)
      [ListCall.insertFront (some 1), ListCall.insertBack (some 2),
        ListCall.insertFront (some 3)] (fun _ => rfl) rfl⟩

/-- C2: on every non-empty list built by insertions, removeFront reports
success and the head-to-tail traversal afterwards is the old traversal without
its first payload. -/
theorem removeFront_after_insertions (ok : Nat → Bool) (pr : Option α → String)
    (cmp : Option α → Option α → Int) (calls : List (ListCall α)) (rs : List Int)
    (s : ListState α) (d : Option α) (ds : List (Option α))
    (hins : calls.all ListCall.isInsert = true)
    (hrun : runCalls calls (createList ok pr cmp) = .ok (rs, s))
    (htrav : traversal s = .ok (d :: ds)) :
    ∃ s', removeListFront s = .ok (EXIT_SUCCESS, s') ∧ traversal s' = .ok ds := by
  obtain ⟨xs, hr⟩ := built_repr hins hrun
  rw [hr.traversal] at htrav
  cases xs with
  | nil => simp at htrav
  | cons x r =>
    simp only [List.map_cons, Except.ok.injEq, List.cons.injEq] at htrav
    obtain ⟨s', l, hl, hrm, hl', hch, hbrk, -, -⟩ := removeListFront_chain hr
    refine ⟨s', hrm, ?_⟩
    rw [← htrav.2]
    refine traversal_of_chain hl' rfl hch ?_ ?_
    · have := hr.nodup
      simp only [List.map_cons, List.nodup_cons] at this
      exact this.2
    · intro y hy
      rw [hbrk]
      exact hr.bound y (List.mem_cons_of_mem _ hy)

/-- Witness for C2: the list built by insertBack(1), insertFront(2),
insertSorted(3). -/
theorem removeFront_after_insertions_witness :
    ([ListCall.insertBack (some 1), ListCall.insertFront (some 2),
        ListCall.insertSorted (some 3)].all ListCall.isInsert = true) ∧
    ∃ s, runCalls [ListCall.insertBack (some 1), ListCall.insertFront (some 2),
            ListCall.insertSorted (some 3)]
          (createList (fun _ => true) (fun _ : Option Nat => "") (fun _ _ => 0)) =
          .ok ([0, 0, 0], s) ∧
      traversal s = .ok [some 2, some 1, some 3] ∧
      ∃ s', removeListFront s = .ok (EXIT_SUCCESS, s') ∧
        traversal s' = .ok [some 1, some 3] :=
  ⟨rfl, _, rfl, rfl,
    removeFront_after_insertions (fun _ => true) (fun _ : Option Nat => "") (fun _ _ => 0)
      [ListCall.insertBack (some 1), ListCall.insertFront (some 2),
        ListCall.insertSorted (some 3)] [0, 0, 0] _ (some 2) [some 1, some 3] rfl rfl rfl⟩
/-- C4: on every list built by insertions and for every non-null payload `x`,
if some element compares equal to `x` then removeMatching reports success and
the traversal afterwards is the old one with exactly the first element
comparing equal to `x` deleted; if no element compares equal to `x` it reports
failure (and leaves the state as it was). -/
theorem removeMatching_after_insertions (ok : Nat → Bool) (pr : Option α → String)
    (cmp : Option α → Option α → Int) (calls : List (ListCall α)) (rs : List Int)
    (s : ListState α) (x : α) (ds : List (Option α))
    (hins : calls.all ListCall.isInsert = true)
    (hrun : runCalls calls (createList ok pr cmp) = .ok (rs, s))
    (htrav : traversal s = .ok ds) :
    ((∃ e ∈ ds, cmp e (some x) = 0) →
      ∃ s', removeFromList s (some x) = .ok (EXIT_SUCCESS, s') ∧
        traversal s' = .ok (ds.eraseP (fun e => decide (cmp e (some x) = 0)))) ∧
    ((∀ e ∈ ds, cmp e (some x) ≠ 0) →
      removeFromList s (some x) = .ok (EXIT_FAILURE, s)) := by
  obtain ⟨xs, hr⟩ := built_repr hins hrun
  rw [hr.traversal] at htrav
  cases htrav
  constructor
  · rintro ⟨e, he, hce⟩
    obtain ⟨y, hy, rfl⟩ := List.mem_map.1 he
    obtain ⟨t, pre, post, hpre, ht, hxs, -⟩ :=
      List.exists_of_eraseP (p := fun z : Nat × Option α => decide (cmp z.2 (some x) = 0)) hy
        (by simpa using hce)
    subst hxs
    simp only [decide_eq_true_eq] at hpre ht
    obtain ⟨s', l', hrm, hl', hh', hch', hbrk', -, -⟩ :=
      removeFromList_found (E := ⟨ok, pr, cmp⟩) hr x hpre ht
    refine ⟨s', hrm, ?_⟩
    have hnd := hr.nodup
    have herase : (List.map Prod.snd (pre ++ t :: post)).eraseP
        (fun e => decide (cmp e (some x) = 0)) = List.map Prod.snd (pre ++ post) := by
      rw [List.map_append, List.map_append, List.map_cons, List.eraseP_append_right,
        List.eraseP_cons_of_pos]
      · simpa using ht
      · intro b hb
        obtain ⟨z, hz, rfl⟩ := List.mem_map.1 hb
        simpa using hpre z hz
    rw [herase]
    refine traversal_of_chain hl' hh' hch' ?_ ?_
    · rw [List.map_append, List.nodup_append] at hnd ⊢
      simp only [List.map_cons, List.nodup_cons] at hnd
      refine ⟨hnd.1, hnd.2.1.2, ?_⟩
      intro a ha1 ha2
      exact hnd.2.2 ha1 (by simp [ha2])
    · intro z hz
      rw [hbrk']
      refine hr.bound z ?_
      rcases List.mem_append.1 hz with h | h
      · simp [h]
      · simp [h]
  · intro hno
    exact removeFromList_none (E := ⟨ok, pr, cmp⟩) hr (some x)
      (fun y hy => hno y.2 (List.mem_map_of_mem _ hy))

/-- Witness for C4: the list 1, 2, 1 under the integer compare callback and
the payload 1. -/
theorem removeMatching_after_insertions_witness :
    ([ListCall.insertBack (some 1), ListCall.insertBack (some 2),
        ListCall.insertBack (some 1)].all ListCall.isInsert = true) ∧
    ∃ s, runCalls [ListCall.insertBack (some 1), ListCall.insertBack (some 2),
            ListCall.insertBack (some 1)]
          (createList (fun _ => true) (fun _ => "") intCompare) = .ok ([0, 0, 0], s) ∧
      traversal s = .ok [some 1, some 2, some 1] ∧
      ((∃ e ∈ [some (1 : Int), some 2, some 1], intCompare e (some 1) = 0) →
        ∃ s', removeFromList s (some 1) = .ok (EXIT_SUCCESS, s') ∧
          traversal s' = .ok ([some (1 : Int), some 2, some 1].eraseP
            (fun e => decide (intCompare e (some 1) = 0)))) ∧
      ((∀ e ∈ [some (1 : Int), some 2, some 1], intCompare e (some 1) ≠ 0) →
        removeFromList s (some 1) = .ok (EXIT_FAILURE, s)) :=
  ⟨rfl, _, rfl, rfl,
    removeMatching_after_insertions (fun _ => true) (fun _ => "") intCompare
      [ListCall.insertBack (some 1), ListCall.insertBack (some 2),
        ListCall.insertBack (some 1)] [0, 0, 0] _ 1 [some 1, some 2, some 1] rfl rfl rfl⟩

/-- C6: starting from an empty list whose compare callback is a total preorder,
any sequence of insertSorted calls runs to completion (whatever each call
reports, and whichever allocations fail) and leaves a list in which every
adjacent pair `(a, b)` in head-to-tail order satisfies `compare(a, b) ≤ 0`. -/
theorem insertSorted_keeps_sorted (ok : Nat → Bool) (pr : Option α → String)
    (cmp : Option α → Option α → Int) (calls : List (ListCall α))
    (hcmp : IsTotalPreorder cmp) (hsorted : calls.all ListCall.isSortedInsert = true) :
    ∃ rs s ds, runCalls calls (createList ok pr cmp) = .ok (rs, s) ∧
      traversal s = .ok ds ∧ SortedBy cmp ds := by
  obtain ⟨rs, s, xs, hrun, hr, hs⟩ :=
    runCalls_sorted (E := ⟨ok, pr, cmp⟩) hcmp calls (createList_repr ⟨ok, pr, cmp⟩)
      (by simp [SortedBy]) hsorted
  exact ⟨rs, s, xs.map Prod.snd, hrun, hr.traversal, hs⟩

/-- Witness for C6: four insertSorted calls under the integer compare
callback, the second allocation failing. -/
theorem insertSorted_keeps_sorted_witness :
    IsTotalPreorder intCompare ∧
    ([ListCall.insertSorted (some 5), ListCall.insertSorted (some 3),
        ListCall.insertSorted (some 8), ListCall.insertSorted (some 3)].all
          ListCall.isSortedInsert = true) ∧
    ∃ rs s ds, runCalls [ListCall.insertSorted (some 5), ListCall.insertSorted (some 3),
            ListCall.insertSorted (some 8), ListCall.insertSorted (some 3)]
          (createList (fun k => decide (k ≠ 1)) (fun _ => "") intCompare) = .ok (rs, s) ∧
      traversal s = .ok ds ∧ SortedBy intCompare ds :=
  ⟨intCompare_totalPreorder, rfl,
    insertSorted_keeps_sorted (fun k => decide (k ≠ 1)) (fun _ => "") intCompare
      [ListCall.insertSorted (some 5), ListCall.insertSorted (some 3),
        ListCall.insertSorted (some 8), ListCall.insertSorted (some 3)]
      intCompare_totalPreorder rfl⟩
/-- C3 (code bug): on the list 1, 2, 3 built by three insertBack calls,
removeBack reports success but stores the predecessor of the old tail in
`head` (line 180) and leaves `tail` and the predecessor's `next` pointing at the
freed node: the first payload seen from `head` is now 2 and the head-to-tail
traversal runs into freed memory. -/
theorem removeBack_loses_front :
    ∃ s s', runCalls [ListCall.insertBack (some 1), ListCall.insertBack (some 2),
              ListCall.insertBack (some 3)]
            (createList (fun _ => true) (fun _ => "") intCompare) = .ok ([0, 0, 0], s) ∧
      traversal s = .ok [some 1, some 2, some 3] ∧
      removeListBack s = .ok (EXIT_SUCCESS, s') ∧
      getFromListFront s' = .ok (some 2) ∧
      traversal s' = .error Fault.badAccess :=
  ⟨_, _, rfl, rfl, rfl, rfl, rfl⟩

/-- C5 (code bug): on the list 1, 2 each of removeFront and removeMatching(2)
reports success and leaves one node in the chain, yet `length` still is 2; on
the list 1 removeBack reports success and leaves no node, yet `length` still is
1.  No removal path ever writes `length`. -/
theorem remove_keeps_length_field :
    ∃ s s1 s2 s3 s4, runCalls [ListCall.insertBack (some 1), ListCall.insertBack (some 2)]
            (createList (fun _ => true) (fun _ => "") intCompare) = .ok ([0, 0], s) ∧
      lengthField s = some 2 ∧
      removeListFront s = .ok (EXIT_SUCCESS, s1) ∧
      traversal s1 = .ok [some 2] ∧ lengthField s1 = some 2 ∧
      removeFromList s (some 2) = .ok (EXIT_SUCCESS, s2) ∧
      traversal s2 = .ok [some 1] ∧ lengthField s2 = some 2 ∧
      runCalls [ListCall.insertBack (some 1)]
            (createList (fun _ => true) (fun _ => "") intCompare) = .ok ([0], s3) ∧
      removeListBack s3 = .ok (EXIT_SUCCESS, s4) ∧
      traversal s4 = .ok [] ∧ lengthField s4 = some 1 :=
  ⟨_, _, _, _, _, rfl, rfl, rfl, rfl, rfl, rfl, rfl, rfl, rfl, rfl, rfl, rfl⟩

/-- C7 (code bug): on the sorted list 3, 5 under the integer compare callback,
with every allocation succeeding, insertSorted(3) reports failure and leaves
length and traversal as they were: the payload ties with the head, so the front
shortcut (`< 0`) does not apply, and the scan asks for `> 0` on the left of the
seam, which the head does not satisfy. -/
theorem insertSorted_fails_on_head_tie :
    ∃ s s', runCalls [ListCall.insertSorted (some 3), ListCall.insertSorted (some 5)]
            (createList (fun _ => true) (fun _ => "") intCompare) = .ok ([0, 0], s) ∧
      traversal s = .ok [some 3, some 5] ∧
      insertSortedList s (some 3) = .ok (EXIT_FAILURE, s') ∧
      lengthField s' = some 2 ∧
      traversal s' = .ok [some 3, some 5] :=
  ⟨_, _, rfl, rfl, rfl, rfl, rfl⟩

/-- C8 (code bug): with the integer compare callback the calls insertSorted(5),
insertSorted(3), insertSorted(8), insertSorted(3) report success, success,
success, failure, and the traversal is 3, 5, 8, not 3, 3, 5, 8. -/
theorem insertSorted_scenario :
    ∃ s, runCalls [ListCall.insertSorted (some 5), ListCall.insertSorted (some 3),
              ListCall.insertSorted (some 8), ListCall.insertSorted (some 3)]
            (createList (fun _ => true) (fun _ => "") intCompare) =
            .ok ([EXIT_SUCCESS, EXIT_SUCCESS, EXIT_SUCCESS, EXIT_FAILURE], s) ∧
      traversal s = .ok [some 3, some 5, some 8] :=
  ⟨_, rfl, rfl⟩

/-- C9 (counterexample): on the sorted list (1,0), (3,0), (5,0), ordered by key,
insertSorted((3,1)) succeeds and puts the new payload before the old payload
(3,0) that compares equal to it, so the new payload is not placed after every
existing equal element. -/
theorem insertSorted_not_stable :
    ∃ s s', runCalls [ListCall.insertSorted (some (1, 0)), ListCall.insertSorted (some (3, 0)),
              ListCall.insertSorted (some (5, 0))]
            (createList (fun _ => true) (fun _ => "") keyCompare) = .ok ([0, 0, 0], s) ∧
      traversal s = .ok [some (1, 0), some (3, 0), some (5, 0)] ∧
      SortedBy keyCompare [some (1, 0), some (3, 0), some (5, 0)] ∧
      insertSortedList s (some (3, 1)) = .ok (EXIT_SUCCESS, s') ∧
      traversal s' = .ok [some (1, 0), some (3, 1), some (3, 0), some (5, 0)] ∧
      ¬ PlacedAfterEquals keyCompare (some (3, 1))
          [some (1, 0), some (3, 0), some (5, 0)]
          [some (1, 0), some (3, 1), some (3, 0), some (5, 0)] := by
  refine ⟨_, _, rfl, rfl, by decide, rfl, rfl, ?_⟩
  rintro ⟨pre, post, h1, h2, h3⟩
  rcases pre with _ | ⟨a, _ | ⟨b, pre⟩⟩
  · simp at h2
  · simp only [List.singleton_append, List.cons.injEq] at h1
    obtain ⟨-, rfl⟩ := h1
    exact h3 (some (3, 0)) (by simp) (by decide)
  · simp only [List.cons_append, List.cons.injEq] at h1 h2
    obtain ⟨-, hb, -⟩ := h1
    obtain ⟨-, hb', -⟩ := h2
    rw [← hb] at hb'
    simp at hb'

/-- C9 (amended): when insertSorted succeeds on a sorted list built by
insertions, under a total-preorder compare callback, the traversal afterwards
is the old one with the new payload `x` inserted at one position, every element
before it comparing not greater and every element after it comparing not less
than `x`.  It stands after every existing element (in particular after the
equal ones) exactly when `x` compares greater than or equal to the old last
element; when `x` compares less than the old last element, every element before
it compares strictly less than `x`, so `x` stands before every existing element
that compares equal to it. -/
theorem insertSorted_tie_position (ok : Nat → Bool) (pr : Option α → String)
    (cmp : Option α → Option α → Int) (calls : List (ListCall α)) (rs : List Int)
    (s s' : ListState α) (x : Option α) (ds : List (Option α))
    (hcmp : IsTotalPreorder cmp) (hins : calls.all ListCall.isInsert = true)
    (hrun : runCalls calls (createList ok pr cmp) = .ok (rs, s))
    (htrav : traversal s = .ok ds) (hsorted : SortedBy cmp ds)
    (hsucc : insertSortedList s x = .ok (EXIT_SUCCESS, s')) :
    ∃ pre post, ds = pre ++ post ∧ traversal s' = .ok (pre ++ x :: post) ∧
      (∀ e ∈ pre, 0 ≤ cmp x e) ∧ (∀ e ∈ post, cmp x e ≤ 0) ∧
      ((∀ b ∈ ds.getLast?, 0 ≤ cmp x b) → post = []) ∧
      ((∃ b ∈ ds.getLast?, cmp x b < 0) → ∀ e ∈ pre, 0 < cmp x e) := by
  obtain ⟨xs, hr⟩ := built_repr hins hrun
  rw [hr.traversal] at htrav
  cases htrav
  obtain ⟨r, s1, xs1, h1, hr1, -, hcase⟩ := insertSortedList_repr hr x
  rw [hsucc] at h1
  cases h1
  rcases hcase with ⟨-, -, hm⟩ | ⟨hf, -⟩
  · obtain ⟨pre, post, hxs, hys, hp1, hp2, hp3, hp4⟩ :=
      insertSortedModel_position hcmp hsorted hm
    refine ⟨pre.map Prod.snd, post.map Prod.snd, by simp [hxs], ?_, ?_, ?_, ?_, ?_⟩
    · rw [hr1.traversal, hys]
      simp
    · intro e he
      obtain ⟨y, hy, rfl⟩ := List.mem_map.1 he
      exact hp1 y hy
    · intro e he
      obtain ⟨y, hy, rfl⟩ := List.mem_map.1 he
      exact hp2 y hy
    · intro hge
      rw [hp3 ?_]
      · rfl
      · intro b hb
        exact hge b.2 (by simp only [List.getLast?_map, Option.mem_def] at hb ⊢; simp [hb])
    · rintro ⟨b, hb, hlt⟩
      simp only [List.getLast?_map, Option.mem_def, Option.map_eq_some'] at hb
      obtain ⟨y, hy, rfl⟩ := hb
      intro e he
      obtain ⟨z, hz, rfl⟩ := List.mem_map.1 he
      exact hp4 ⟨y, hy, hlt⟩ z hz
  · exact absurd hf (by decide)

/-- Witness for C9 (amended): the sorted list (1,0), (3,0), (5,0) and the
payload (3,1). -/
theorem insertSorted_tie_position_witness :
    IsTotalPreorder keyCompare ∧
    ∃ s s', runCalls [ListCall.insertSorted (some (1, 0)), ListCall.insertSorted (some (3, 0)),
              ListCall.insertSorted (some (5, 0))]
            (createList (fun _ => true) (fun _ => "") keyCompare) = .ok ([0, 0, 0], s) ∧
      traversal s = .ok [some (1, 0), some (3, 0), some (5, 0)] ∧
      SortedBy keyCompare [some (1, 0), some (3, 0), some (5, 0)] ∧
      insertSortedList s (some (3, 1)) = .ok (EXIT_SUCCESS, s') ∧
      ∃ pre post, [some (1, 0), some (3, 0), some (5, 0)] = pre ++ post ∧
        traversal s' = .ok (pre ++ some (3, 1) :: post) ∧
        (∀ e ∈ pre, 0 ≤ keyCompare (some (3, 1)) e) ∧
        (∀ e ∈ post, keyCompare (some (3, 1)) e ≤ 0) ∧
        ((∀ b ∈ [some ((1 : Int), (0 : Int)), some (3, 0), some (5, 0)].getLast?,
            0 ≤ keyCompare (some (3, 1)) b) → post = []) ∧
        ((∃ b ∈ [some ((1 : Int), (0 : Int)), some (3, 0), some (5, 0)].getLast?,
            keyCompare (some (3, 1)) b < 0) → ∀ e ∈ pre, 0 < keyCompare (some (3, 1)) e) :=
  ⟨keyCompare_totalPreorder, _, _, rfl, rfl, by decide, rfl,
    insertSorted_tie_position (fun _ => true) (fun _ => "") keyCompare
      [ListCall.insertSorted (some (1, 0)), ListCall.insertSorted (some (3, 0)),
        ListCall.insertSorted (some (5, 0))] [0, 0, 0] _ _ (some (3, 1))
      [some (1, 0), some (3, 0), some (5, 0)] keyCompare_totalPreorder rfl rfl rfl
      (by decide) rfl⟩
/-- C10 (code bug): on a table of size 4 with `hash(size, key) = key mod size`
and all buckets empty, insert(1, "a") succeeds and bucket 1 then holds the key
1; insert(5, "b"), a key that is not stored and whose bucket holds a node with
another key, does not report success: the loop at lines 59-67 runs `temp` to
`NULL` and line 68 stores the new node through that null pointer. -/
theorem insert_into_occupied_bucket_faults :
    ∃ s0 s1, createTable (fun _ => true) 0 (fun _ => 0) 4 (fun _ => "") modHash = .ok s0 ∧
      insertData s0 1 (some "a") = .ok (EXIT_SUCCESS, s1) ∧
      bucketKeys s1 1 = .ok [1] ∧
      lookupData s1 5 = .ok none ∧
      bucketIndex (β := String)
        { size := 4, table := fun _ => 0, printData := fun _ => "", hashData := modHash } 5 =
          .ok 1 ∧
      insertData s1 5 (some "b") = .error Fault.nullDeref :=
  ⟨_, _, rfl, rfl, rfl, rfl, rfl, rfl⟩
/-- C11 (code bug): in a table of size 4 whose bucket 1 holds key 1 and then key
5, the key 5 is stored (lookup finds its payload), yet insert(5, "c") does not
report success: the test at line 60 reads the key of the bucket head at every
node, never matches, runs `temp` to `NULL` and line 68 stores through it.  For
the key at the head of the chain, insert(1, "c") does replace the payload. -/
theorem insert_existing_key_behind_head_faults :
    bucketKeys twoNodeBucket 1 = .ok [1, 5] ∧
    lookupData twoNodeBucket 5 = .ok (some "b") ∧
    insertData twoNodeBucket 5 (some "c") = .error Fault.nullDeref ∧
    ∃ s, insertData twoNodeBucket 1 (some "c") = .ok (EXIT_SUCCESS, s) ∧
      bucketKeys s 1 = .ok [1, 5] ∧ lookupData s 1 = .ok (some "c") ∧
      lookupData s 5 = .ok (some "b") :=
  ⟨rfl, rfl, rfl, _, rfl, rfl, rfl, rfl⟩

/-- C12 (code bug): on a table of size 3 holding only the key 7, remove(7)
reports success but frees the node without unlinking it (line 113 sets `prev`
to `temp`, so line 119 stores `temp->next` into itself); bucket 1 still points
to the freed node and the following lookup(7) reads freed memory instead of
returning the none sentinel. -/
theorem remove_then_lookup_reads_freed :
    ∃ s0 s1 s2, createTable (fun _ => true) 0 (fun _ => 0) 3 (fun _ => "") modHash = .ok s0 ∧
      insertData s0 7 (some "a") = .ok (EXIT_SUCCESS, s1) ∧
      lookupData s1 7 = .ok (some "a") ∧
      removeData s1 7 = .ok (EXIT_SUCCESS, s2) ∧
      lookupData s2 7 = .error Fault.badAccess :=
  ⟨_, _, _, rfl, rfl, rfl, rfl, rfl⟩

/-- C13 (code bug): in the scenario with size 4 and `key mod size`, insert(1,
"a") succeeds and lookup(1) gives "a", but insert(5, "b") stores through a null
pointer instead of succeeding, so lookup(5) never gives "b"; and remove(1)
leaves bucket 1 pointing to the freed node, so the following lookup(1) and
lookup(5) read freed memory instead of giving none. -/
theorem table_scenario :
    ∃ s0 s1 s2, createTable (fun _ => true) 0 (fun _ => 0) 4 (fun _ => "") modHash = .ok s0 ∧
      insertData s0 1 (some "a") = .ok (EXIT_SUCCESS, s1) ∧
      lookupData s1 1 = .ok (some "a") ∧
      insertData s1 5 (some "b") = .error Fault.nullDeref ∧
      lookupData s1 5 = .ok none ∧
      removeData s1 1 = .ok (EXIT_SUCCESS, s2) ∧
      lookupData s2 1 = .error Fault.badAccess ∧
      lookupData s2 5 = .error Fault.badAccess :=
  ⟨_, _, _, rfl, rfl, rfl, rfl, rfl, rfl, rfl, rfl⟩

/-- C14 (code bug): create(4, ...) reads `hTable->size` in the loop of line 34
before line 42 assigns it.  When the fresh block holds 0 there, no bucket is
cleared: the table has size 4 but bucket 1 keeps the stale value 7 and
lookup(1) follows it.  When the block holds 9 there, the loop writes behind the
four buckets. -/
theorem create_leaves_buckets_uninitialised :
    (∃ s t, createTable (fun _ => true) 0 (fun _ => 7) 4 (fun _ : Option String => "") modHash
          = .ok s ∧
      s.hTable = some t ∧ t.size = 4 ∧ t.table 1 = 7 ∧
      lookupData s 1 = .error Fault.badAccess) ∧
    createTable (fun _ => true) 9 (fun _ => 7) 4 (fun _ : Option String => "") modHash
      = .error Fault.outOfBounds :=
  ⟨⟨_, _, rfl, rfl, rfl, rfl, rfl⟩, rfl⟩

/-- C15 (counterexample): on the list 1, 2, 3 three calls of iterateNext on a
freshly created cursor return 1, 2 and then the none sentinel; the payload 3 is
not returned, because the call refuses to move when the current node has no
successor (line 375). -/
theorem iterateNext_skips_last :
    ∃ s it, runCalls [ListCall.insertBack (some 1), ListCall.insertBack (some 2),
              ListCall.insertBack (some 3)]
            (createList (fun _ => true) (fun _ => "") intCompare) = .ok ([0, 0, 0], s) ∧
      traversal s = .ok [some 1, some 2, some 3] ∧
      iterateMany s 3 (some (createListIterator s)) = .ok ([some 1, some 2, none], it) ∧
      ¬ ∃ it', iterateMany s 3 (some (createListIterator s)) =
          .ok ([some 1, some 2, some 3], it') := by
  refine ⟨_, _, rfl, rfl, rfl, ?_⟩
  rintro ⟨it', h⟩
  have h2 : (Except.ok ([some (1 : Int), some 2, none], _) :
      Except Fault (List (Option Int) × Option ListIterator)) = _ := h
  simp at h2

/-- C15 (amended): for every list built by insertions, with traversal `ds` of
length n, n - 1 calls of iterateNext on a freshly created cursor return the
first n - 1 payloads in head-to-tail order (all of `ds` but its last payload),
each exactly once; from then on every call returns the none sentinel and
leaves the cursor where it is, so the last payload is never returned.
resetIterator on a cursor of the list gives back the freshly created cursor. -/
theorem iterateNext_all_but_last (ok : Nat → Bool) (pr : Option α → String)
    (cmp : Option α → Option α → Int) (calls : List (ListCall α)) (rs : List Int)
    (s : ListState α) (ds : List (Option α))
    (hins : calls.all ListCall.isInsert = true)
    (hrun : runCalls calls (createList ok pr cmp) = .ok (rs, s))
    (htrav : traversal s = .ok ds) :
    (∃ it, iterateMany s (ds.length - 1) (some (createListIterator s)) =
          .ok (ds.dropLast, some it) ∧
        ∀ k, iterateMany s k (some it) = .ok (List.replicate k none, some it)) ∧
      ∀ it : ListIterator, it.list = true →
        resetListIterator s (some it) = .ok (EXIT_SUCCESS, some (createListIterator s)) := by
  obtain ⟨xs, hr⟩ := built_repr hins hrun
  rw [hr.traversal] at htrav
  cases htrav
  obtain ⟨⟨l, hl, hh, ht, hlen, hcmp, hpr⟩, hmok, hc, hnd, hb, hfr⟩ := hr
  constructor
  · cases xs with
    | nil =>
      simp only [firstAddr_nil] at hh
      refine ⟨createListIterator s, rfl, ?_⟩
      exact iterateMany_stuck _ (Or.inl (by simp [createListIterator, hl, hh]))
    | cons x r =>
      have h0 : ∀ y ∈ x :: r, y.1 ≠ 0 := fun y hy => by have := hb y hy; omega
      have hit := iterateMany_chain (s := s) true r x 0 hc h0
      simp only [firstAddr_cons] at hh
      have hcreate : createListIterator s = { list := true, currentNode := x.1 } := by
        simp [createListIterator, hl, hh]
      refine ⟨{ list := true, currentNode := lastAddr x.1 r }, ?_, ?_⟩
      · rw [hcreate]
        simpa [List.map_dropLast] using hit
      · apply iterateMany_stuck
        right
        obtain ⟨L, b, hLb⟩ : ∃ L b, x :: r = L ++ [b] := by
          rcases eq_nil_or_snoc (x :: r) with h | h
          · exact absurd h (by simp)
          · exact h
        have hlast : lastAddr x.1 r = b.1 := by
          have : lastAddr 0 (x :: r) = lastAddr x.1 r := rfl
          rw [← this, hLb, lastAddr_append]
          rfl
        refine ⟨{ data := b.2, prev := lastAddr 0 L, next := 0 }, ?_, rfl⟩
        simp only [hlast]
        exact Chain.last_cell (hLb ▸ hc)
  · intro it hit
    simp [resetListIterator, hit, hl, createListIterator]

/-- Witness for C15 (amended): the list 1, 2, 3. -/
theorem iterateNext_all_but_last_witness :
    ([ListCall.insertBack (some 1), ListCall.insertBack (some 2),
        ListCall.insertBack (some 3)].all ListCall.isInsert = true) ∧
    ∃ s, runCalls [ListCall.insertBack (some 1), ListCall.insertBack (some 2),
            ListCall.insertBack (some 3)]
          (createList (fun _ => true) (fun _ => "") intCompare) = .ok ([0, 0, 0], s) ∧
      traversal s = .ok [some 1, some 2, some 3] ∧
      (∃ it, iterateMany s 2 (some (createListIterator s)) = .ok ([some 1, some 2], some it) ∧
        ∀ k, iterateMany s k (some it) = .ok (List.replicate k none, some it)) ∧
      ∀ it : ListIterator, it.list = true →
        resetListIterator s (some it) = .ok (EXIT_SUCCESS, some (createListIterator s)) :=
  ⟨rfl, _, rfl, rfl,
    iterateNext_all_but_last (fun _ => true) (fun _ => "") intCompare
      [ListCall.insertBack (some 1), ListCall.insertBack (some 2),
        ListCall.insertBack (some 3)] [0, 0, 0] _ [some 1, some 2, some 3] rfl rfl rfl⟩
/-- C16: for every list state whose store has seen fewer than `(size_t) -1`
allocations, and every payload `x`, contains(list, x) and indexOf(list, x) agree:
contains is true exactly when indexOf is not the not-found sentinel `(size_t) -1`
(and if one of the two runs into undefined behaviour, so does the other, in the
same way).  On a list built by insertions both return. -/
theorem contains_iff_indexOf (s : ListState α) (x : Option α)
    (hsmall : s.mem.brk < SIZE_MAX) :
    listContains s x = (getListIndex s x).map (fun i => decide (i ≠ SIZE_MAX)) ∧
    ∀ (ok : Nat → Bool) (pr : Option α → String) (cmp : Option α → Option α → Int)
      (calls : List (ListCall α)) (rs : List Int),
      calls.all ListCall.isInsert = true →
      runCalls calls (createList ok pr cmp) = .ok (rs, s) →
      ∃ b i, listContains s x = .ok b ∧ getListIndex s x = .ok i ∧
        (b = true ↔ i ≠ SIZE_MAX) := by
  have hmain : listContains s x =
      (getListIndex s x).map (fun i => decide (i ≠ SIZE_MAX)) := by
    simp only [listContains, getListIndex]
    cases s.list with
    | none => simp [Except.map]
    | some l =>
      simp only
      split
      · simp [Except.map]
      · exact contains_index_loop l.compareData x s.mem (s.mem.brk + 1) l.head 0 (by omega)
  refine ⟨hmain, ?_⟩
  intro ok pr cmp calls rs hins hrun
  obtain ⟨xs, hr⟩ := built_repr hins hrun
  have hidx : ∃ i, getListIndex s x = .ok i := by
    by_cases hex : ∃ y ∈ xs, cmp y.2 x = 0
    · cases x with
      | none =>
        obtain ⟨⟨l, hl, -⟩, -⟩ := hr
        exact ⟨SIZE_MAX, by simp [getListIndex, hl]⟩
      | some a =>
        obtain ⟨pre, t, post, rfl, hpre, ht⟩ := first_match_split hex
        exact ⟨_, (getListIndex_found (E := ⟨ok, pr, cmp⟩) hr a hsmall hpre ht).1⟩
    · exact ⟨_, getListIndex_none (E := ⟨ok, pr, cmp⟩) hr x
        (fun y hy h => hex ⟨y, hy, h⟩)⟩
  obtain ⟨i, hi⟩ := hidx
  refine ⟨decide (i ≠ SIZE_MAX), i, ?_, hi, by simp⟩
  rw [hmain, hi]
  rfl

/-- Witness for C16: the list 1, 2, 3 and the payload 2. -/
theorem contains_iff_indexOf_witness :
    ∃ s, runCalls [ListCall.insertBack (some 1), ListCall.insertBack (some 2),
            ListCall.insertBack (some 3)]
          (createList (fun _ => true) (fun _ => "") intCompare) = .ok ([0, 0, 0], s) ∧
      s.mem.brk < SIZE_MAX ∧
      listContains s (some 2) =
        (getListIndex s (some 2)).map (fun i => decide (i ≠ SIZE_MAX)) ∧
      ∀ (ok : Nat → Bool) (pr : Option Int → String) (cmp : Option Int → Option Int → Int)
        (calls : List (ListCall Int)) (rs : List Int),
        calls.all ListCall.isInsert = true →
        runCalls calls (createList ok pr cmp) = .ok (rs, s) →
        ∃ b i, listContains s (some 2) = .ok b ∧ getListIndex s (some 2) = .ok i ∧
          (b = true ↔ i ≠ SIZE_MAX) :=
  ⟨_, rfl, by decide, contains_iff_indexOf _ (some 2) (by decide)⟩

/-- C17: on every list built by insertions (its store having seen fewer than
`(size_t) -1` allocations) and for every non-null payload `x`: if the traversal
is `pre ++ e :: post` with no payload of `pre` comparing equal to `x` and `e`
comparing equal to `x`, then indexOf(list, x) is the position of `e` (the least
position whose payload compares equal to `x`) and at(list, that position) is
`e`; if no payload compares equal to `x`, indexOf returns the not-found
sentinel `(size_t) -1`; and at(list, i) returns the none sentinel for every `i`
from the length on. -/
theorem indexOf_and_at (ok : Nat → Bool) (pr : Option α → String)
    (cmp : Option α → Option α → Int) (calls : List (ListCall α)) (rs : List Int)
    (s : ListState α) (x : α) (ds : List (Option α))
    (hins : calls.all ListCall.isInsert = true)
    (hrun : runCalls calls (createList ok pr cmp) = .ok (rs, s))
    (htrav : traversal s = .ok ds) (hsmall : s.mem.brk < SIZE_MAX) :
    (∀ pre e post, ds = pre ++ e :: post → (∀ a ∈ pre, cmp a (some x) ≠ 0) →
        cmp e (some x) = 0 →
        getListIndex s (some x) = .ok pre.length ∧ getListData s pre.length = .ok e) ∧
    ((∀ e ∈ ds, cmp e (some x) ≠ 0) → getListIndex s (some x) = .ok SIZE_MAX) ∧
    (∀ i, ds.length ≤ i → getListData s i = .ok none) := by
  obtain ⟨xs, hr⟩ := built_repr hins hrun
  rw [hr.traversal] at htrav
  cases htrav
  refine ⟨?_, ?_, ?_⟩
  · intro pre e post hds hpre he
    obtain ⟨xpre, t, xpost, rfl, rfl, rfl, rfl⟩ := map_snd_split hds
    have := getListIndex_found (E := ⟨ok, pr, cmp⟩) hr x hsmall
      (fun y hy => hpre y.2 (List.mem_map_of_mem _ hy)) he
    simpa using this
  · intro hno
    exact getListIndex_none (E := ⟨ok, pr, cmp⟩) hr (some x)
      (fun y hy => hno y.2 (List.mem_map_of_mem _ hy))
  · intro i hi
    exact getListData_out hr hsmall i (by simpa using hi)

/-- Witness for C17: the list 1, 2, 1 under the integer compare callback and
the payload 2. -/
theorem indexOf_and_at_witness :
    ([ListCall.insertBack (some 1), ListCall.insertBack (some 2),
        ListCall.insertBack (some 1)].all ListCall.isInsert = true) ∧
    ∃ s, runCalls [ListCall.insertBack (some 1), ListCall.insertBack (some 2),
            ListCall.insertBack (some 1)]
          (createList (fun _ => true) (fun _ => "") intCompare) = .ok ([0, 0, 0], s) ∧
      traversal s = .ok [some 1, some 2, some 1] ∧
      s.mem.brk < SIZE_MAX ∧
      (∀ pre e post, [some (1 : Int), some 2, some 1] = pre ++ e :: post →
          (∀ a ∈ pre, intCompare a (some 2) ≠ 0) → intCompare e (some 2) = 0 →
          getListIndex s (some 2) = .ok pre.length ∧ getListData s pre.length = .ok e) ∧
      ((∀ e ∈ [some (1 : Int), some 2, some 1], intCompare e (some 2) ≠ 0) →
        getListIndex s (some 2) = .ok SIZE_MAX) ∧
      (∀ i, [some (1 : Int), some 2, some 1].length ≤ i → getListData s i = .ok none) :=
  ⟨rfl, _, rfl, rfl, by decide,
    indexOf_and_at (fun _ => true) (fun _ => "") intCompare
      [ListCall.insertBack (some 1), ListCall.insertBack (some 2),
        ListCall.insertBack (some 1)] [0, 0, 0] _ 2 [some 1, some 2, some 1] rfl rfl rfl
      (by decide)⟩
/-- C18 (code bug): toString and toStringReverse give the empty string on an
empty list, but on the list holding the single payload 1 (stringified as "1")
both run over the end of their buffer: line 316 (and line 344) resize it to
`strlen(str) + strlen(tempStr)` bytes, here 1 byte, and `strcat` then writes the
character and the terminating NUL, 2 bytes. -/
theorem toString_overruns_buffer :
    printList (createList (fun _ => true) (fun _ => "1") intCompare) = .ok "" ∧
    printListReverse (createList (fun _ => true) (fun _ => "1") intCompare) = .ok "" ∧
    ∃ s, runCalls [ListCall.insertBack (some 1)]
            (createList (fun _ => true) (fun _ => "1") intCompare) = .ok ([0], s) ∧
      traversal s = .ok [some 1] ∧
      strlen "" + strlen "1" = 1 ∧
      strcat { cap := 1, str := "" } "1" = .error Fault.outOfBounds ∧
      printList s = .error Fault.outOfBounds ∧
      printListReverse s = .error Fault.outOfBounds :=
  ⟨rfl, rfl, _, rfl, rfl, rfl, rfl, rfl, rfl⟩

/-- C19 (code bug): after the only element of the list 1 is removed, by
removeFront, by removeBack or by removeMatching(1), the chain is empty but
`length` still is 1 and `tail` still holds the address of the freed node.
peekFront then dereferences the null `head`, peekBack reads the freed node, and
insertFront and insertBack, finding `tail` non-null, take the non-empty path
and fault as well. -/
theorem emptied_list_is_not_fresh :
    ∃ s s1 s2 s3, runCalls [ListCall.insertBack (some 1)]
            (createList (fun _ => true) (fun _ => "") intCompare) = .ok ([0], s) ∧
      removeListFront s = .ok (EXIT_SUCCESS, s1) ∧
      removeListBack s = .ok (EXIT_SUCCESS, s2) ∧
      removeFromList s (some 1) = .ok (EXIT_SUCCESS, s3) ∧
      traversal s1 = .ok [] ∧ lengthField s1 = some 1 ∧
      getFromListFront s1 = .error Fault.nullDeref ∧
      getFromListBack s1 = .error Fault.badAccess ∧
      insertListFront s1 (some 4) = .error Fault.nullDeref ∧
      insertListBack s1 (some 4) = .error Fault.badAccess ∧
      getFromListFront s2 = .error Fault.nullDeref ∧
      insertListFront s2 (some 4) = .error Fault.nullDeref ∧
      getFromListFront s3 = .error Fault.nullDeref ∧
      insertListFront s3 (some 4) = .error Fault.nullDeref :=
  ⟨_, _, _, _, rfl, rfl, rfl, rfl, rfl, rfl, rfl, rfl, rfl, rfl, rfl, rfl, rfl, rfl⟩

/-- C20: failure means no mutation.  On every list state whose store holds
nothing beyond its allocation counter (`malloc` hands out unused memory),
whenever insertFront, insertBack, insertSorted, removeFront, removeBack or
removeMatching reports failure, the list struct (head, tail, length), every
node of the store and the record of destroyed payloads are exactly as before
the call; and whenever remove on a hash table reports failure, the table state
is exactly as before the call. -/
theorem failure_means_no_mutation (s s' : ListState α) (c : ListCall α)
    (t t' : TableState β) (key : Int)
    (hfresh : ∀ p, s.mem.brk < p → s.mem.cells p = none)
    (hfail : c.run s = .ok (EXIT_FAILURE, s'))
    (hfailT : removeData t key = .ok (EXIT_FAILURE, t')) :
    (s'.list = s.list ∧ s'.mem.cells = s.mem.cells ∧ s'.destroyed = s.destroyed) ∧
      t' = t := by
  refine ⟨?_, removeData_failure hfailT⟩
  cases c with
  | insertFront d => exact insertListFront_failure hfail
  | insertBack d => exact insertListBack_failure hfail
  | insertSorted d => exact insertSortedList_failure hfresh hfail
  | removeFront => rw [removeListFront_failure hfail]; exact ⟨rfl, rfl, rfl⟩
  | removeBack => rw [removeListBack_failure hfail]; exact ⟨rfl, rfl, rfl⟩
  | removeMatching d => rw [removeFromList_failure hfail]; exact ⟨rfl, rfl, rfl⟩

/-- Witness for C20: insertSorted(3) on the sorted list 3, 5 (it allocates a
node, finds no seam and frees the node again) and remove(1) on an empty table
of size 4. -/
theorem failure_means_no_mutation_witness :
    ∃ (s s' : ListState Int) (t t' : TableState String),
      runCalls [ListCall.insertSorted (some 3), ListCall.insertSorted (some 5)]
          (createList (fun _ => true) (fun _ => "") intCompare) = .ok ([0, 0], s) ∧
      createTable (fun _ => true) 0 (fun _ => 0) 4 (fun _ => "") modHash = .ok t ∧
      (∀ p, s.mem.brk < p → s.mem.cells p = none) ∧
      (ListCall.insertSorted (some 3)).run s = .ok (EXIT_FAILURE, s') ∧
      removeData t 1 = .ok (EXIT_FAILURE, t') ∧
      (s'.list = s.list ∧ s'.mem.cells = s.mem.cells ∧ s'.destroyed = s.destroyed) ∧
      t' = t := by
  refine ⟨_, _, _, _, rfl, rfl,
    built_fresh (fun _ => true) (fun _ => "") intCompare
      [ListCall.insertSorted (some 3), ListCall.insertSorted (some 5)] [0, 0] _ rfl rfl,
    rfl, rfl, ?_⟩
  have h1 := built_fresh (fun _ => true) (fun _ => "") intCompare
      [ListCall.insertSorted (some 3), ListCall.insertSorted (some 5)] [0, 0] _ rfl rfl
  refine failure_means_no_mutation _ _ (ListCall.insertSorted (some 3)) _ _ 1 h1 ?_ ?_
  · rfl
  · rfl
/-- C21 (code bug): with an absent list, table or cursor most operations return
their failure or none result, but four do not test their argument: toString
and toStringReverse read `list->head` and `list->tail` of the null list (lines
312 and 340), the table's toString reads `hTable->size` of the null table (line
166), and resetIterator on a cursor created from an absent list reads
`iterator->list->head` with `iterator->list` null (line 399). -/
theorem absent_argument_faults :
    insertListFront (absentList Int) (some 1) = .ok (EXIT_FAILURE, absentList Int) ∧
    removeFromList (absentList Int) (some 1) = .ok (EXIT_FAILURE, absentList Int) ∧
    getFromListFront (absentList Int) = .ok none ∧
    getListIndex (absentList Int) (some 1) = .ok SIZE_MAX ∧
    listContains (absentList Int) (some 1) = .ok false ∧
    lookupData (absentTable String) 1 = .ok none ∧
    removeData (absentTable String) 1 = .ok (EXIT_FAILURE, absentTable String) ∧
    listIterateNext (absentList Int) none = .ok (none, none) ∧
    resetListIterator (absentList Int) none = .ok (EXIT_FAILURE, none) ∧
    createListIterator (absentList Int) = { list := false, currentNode := 0 } ∧
    listIterateNext (absentList Int) (some (createListIterator (absentList Int))) =
      .ok (none, some (createListIterator (absentList Int))) ∧
    printList (absentList Int) = .error Fault.nullDeref ∧
    printListReverse (absentList Int) = .error Fault.nullDeref ∧
    printTable (absentTable String) = .error Fault.nullDeref ∧
    resetListIterator (absentList Int) (some (createListIterator (absentList Int))) =
      .error Fault.nullDeref :=
  ⟨rfl, rfl, rfl, rfl, rfl, rfl, rfl, rfl, rfl, rfl, rfl, rfl, rfl, rfl, rfl⟩

/-- C22 (code bug): the state reached from create by insertBack(1),
removeFront has a null `head`, a non-null `tail` (the address of the freed
node) and `length` 1, with no node in the chain; the state reached by
insertBack(1), insertBack(2), removeMatching(2) has one node in the chain and
`length` 2. -/
theorem removal_breaks_list_invariant :
    (∃ s l, runCalls [ListCall.insertBack (some 1), ListCall.removeFront]
            (createList (fun _ => true) (fun _ => "") intCompare) = .ok ([0, 0], s) ∧
      s.list = some l ∧ l.head = 0 ∧ l.tail = 1 ∧ l.length = 1 ∧
      listNodes s = .ok []) ∧
    (∃ s l n, runCalls [ListCall.insertBack (some 1), ListCall.insertBack (some 2),
              ListCall.removeMatching (some 2)]
            (createList (fun _ => true) (fun _ => "") intCompare) = .ok ([0, 0, 0], s) ∧
      s.list = some l ∧ l.length = 2 ∧ listNodes s = .ok [n]) :=
  ⟨⟨_, _, rfl, rfl, rfl, rfl, rfl, rfl⟩, ⟨_, _, _, rfl, rfl, rfl, rfl⟩⟩

/-- C23 (code bug): from a table of size 4 with `key mod size` and empty
buckets, insert(1, "a") and remove(1) both report success; afterwards bucket 1
still holds the address of the node that remove freed, so what is reachable
from bucket 1 is no node at all and its key cannot be read. -/
theorem remove_breaks_table_invariant :
    ∃ s0 s1 s2 t, createTable (fun _ => true) 0 (fun _ => 0) 4 (fun _ => "") modHash = .ok s0 ∧
      insertData s0 1 (some "a") = .ok (EXIT_SUCCESS, s1) ∧
      bucketKeys s1 1 = .ok [1] ∧ modHash 4 1 = 1 ∧
      removeData s1 1 = .ok (EXIT_SUCCESS, s2) ∧
      s2.hTable = some t ∧ t.table 1 = 1 ∧ s2.mem.cells 1 = none ∧
      bucketKeys s2 1 = .error Fault.badAccess :=
  ⟨_, _, _, _, rfl, rfl, rfl, rfl, rfl, rfl, rfl, rfl, rfl⟩

/-- C24: on every non-empty list built by insertions and for every payload `x`
(the compare callback being a function of its two arguments), insertSorted
returns without fault; and whenever the back shortcut does not apply, that is
`compare(x, tail payload) < 0`, every node of the chain at which the first
conjunct `compare(x, temp->data) > 0` of line 116 holds has a non-null `next`,
so the second conjunct never reads the successor of the tail. -/
theorem seam_scan_stays_inside (ok : Nat → Bool) (pr : Option α → String)
    (cmp : Option α → Option α → Int) (calls : List (ListCall α)) (rs : List Int)
    (s : ListState α) (x : Option α) (d : Option α) (ds : List (Option α))
    (hins : calls.all ListCall.isInsert = true)
    (hrun : runCalls calls (createList ok pr cmp) = .ok (rs, s))
    (htrav : traversal s = .ok (d :: ds)) :
    (∃ r s', insertSortedList s x = .ok (r, s')) ∧
    ∃ ns, listNodes s = .ok ns ∧ ns.map (·.data) = d :: ds ∧
      ∀ b, (d :: ds).getLast? = some b → cmp x b < 0 →
        ∀ n ∈ ns, 0 < cmp x n.data → n.next ≠ 0 := by
  obtain ⟨xs, hr⟩ := built_repr hins hrun
  rw [hr.traversal] at htrav
  simp only [Except.ok.injEq] at htrav
  constructor
  · obtain ⟨r, s', _, h, -⟩ := insertSortedList_repr hr x
    exact ⟨r, s', h⟩
  · obtain ⟨⟨l, hl, hh, ht, hlen, hcmp, hpr⟩, hmok, hc, hnd, hb, hfr⟩ := hr
    have hlen1 := length_le_of_bound hnd hb
    obtain ⟨ns, hns, hmap, hprop⟩ := walkNodes_chain (m := s.mem) xs 0 (s.mem.brk + 1) hc
      (fun y hy => by have := hb y hy; omega) (by omega)
    refine ⟨ns, by simp [listNodes, hl, hh, hns], by rw [hmap, htrav], ?_⟩
    intro b hlast hlt n hn hgt
    rcases hprop n hn with h | ⟨b', hb', hd⟩
    · exact h
    · exfalso
      rw [← htrav, List.getLast?_map, hb'] at hlast
      simp only [Option.map_some', Option.some.injEq] at hlast
      rw [hd, hlast] at hgt
      omega

/-- Witness for C24: the list 1, 3, 5 under the integer compare callback and
the payload 4, which the scan links in between 3 and 5. -/
theorem seam_scan_stays_inside_witness :
    ([ListCall.insertBack (some 1), ListCall.insertBack (some 3),
        ListCall.insertBack (some 5)].all ListCall.isInsert = true) ∧
    ∃ s, runCalls [ListCall.insertBack (some 1), ListCall.insertBack (some 3),
            ListCall.insertBack (some 5)]
          (createList (fun _ => true) (fun _ => "") intCompare) = .ok ([0, 0, 0], s) ∧
      traversal s = .ok [some 1, some 3, some 5] ∧
      (∃ r s', insertSortedList s (some 4) = .ok (r, s')) ∧
      ∃ ns, listNodes s = .ok ns ∧ ns.map (·.data) = [some 1, some 3, some 5] ∧
        ∀ b, [some (1 : Int), some 3, some 5].getLast? = some b →
          intCompare (some 4) b < 0 →
          ∀ n ∈ ns, 0 < intCompare (some 4) n.data → n.next ≠ 0 := by
  refine ⟨rfl, _, rfl, rfl, ?_⟩
  refine seam_scan_stays_inside (fun _ => true) (fun _ => "") intCompare
    [ListCall.insertBack (some 1), ListCall.insertBack (some 3),
      ListCall.insertBack (some 5)] [0, 0, 0] _ (some 4) (some 1) [some 3, some 5] rfl ?_ ?_
  · rfl
  · rfl

end LibADT
